import Mathlib

/-!
Verification development for the media fetch-then-publish bot (src/media.py).
The Python source is shallowly embedded: registries (dictionaries) become
association lists, the file system and process table become Boolean-valued
functions, and the task pipeline becomes a function of an explicit oracle
describing the external world (process exit code, output chunks, chunk-upload
events, cancellation timing, notification-sink failures).
-/

namespace StartMedia

/-! ## Generic helpers: association lists and character-list utilities -/

/-- Strip a literal leading pattern from a character list; `none` when the
list does not begin with the pattern.  Models matching a literal piece of a
regular expression. -/
def stripL : List Char → List Char → Option (List Char)
  | [], s => some s
  | _ :: _, [] => none
  | p :: ps, c :: cs => if p = c then stripL ps cs else none

/-- Boolean test: `a` is a leading segment of `b`. -/
def isPre (a b : List Char) : Bool := (stripL a b).isSome

/-- All trailing segments of a list, longest first (the list itself included,
the empty list last). -/
def allSufs : List Char → List (List Char)
  | [] => [[]]
  | c :: t => (c :: t) :: allSufs t

theorem stripL_eq_some {p s r : List Char} : stripL p s = some r ↔ s = p ++ r := by
  induction p generalizing s with
  | nil => simp [stripL]
  | cons x xs ih =>
    cases s with
    | nil => simp [stripL]
    | cons c cs =>
      by_cases h : x = c
      · subst h
        simp [stripL, ih]
      · simp [stripL, h, Ne.symm h]

theorem stripL_length {p s r : List Char} (h : stripL p s = some r) :
    s.length = p.length + r.length := by
  rw [stripL_eq_some] at h
  subst h
  simp [List.length_append]

theorem stripL_append (a b s : List Char) :
    stripL (a ++ b) s = (stripL a s).bind (stripL b) := by
  induction a generalizing s with
  | nil => simp [stripL]
  | cons x xs ih =>
    cases s with
    | nil => simp [stripL]
    | cons c cs =>
      by_cases h : x = c
      · simp [stripL, h, ih]
      · simp [stripL, h]

theorem isPre_iff {a b : List Char} : isPre a b = true ↔ ∃ r, b = a ++ r := by
  unfold isPre
  rw [Option.isSome_iff_exists]
  constructor
  · rintro ⟨r, hr⟩
    exact ⟨r, stripL_eq_some.1 hr⟩
  · rintro ⟨r, rfl⟩
    exact ⟨r, stripL_eq_some.2 rfl⟩

theorem isPre_append_cases {a u s : List Char} (h : isPre a (u ++ s) = true) :
    isPre a u = true ∨ isPre u a = true := by
  induction u generalizing a with
  | nil =>
    right
    rw [isPre_iff]
    exact ⟨a, rfl⟩
  | cons c t ih =>
    cases a with
    | nil =>
      left
      rw [isPre_iff]
      exact ⟨c :: t, rfl⟩
    | cons d ds =>
      by_cases hd : d = c
      · subst hd
        have h' : isPre ds (t ++ s) = true := by
          simpa [isPre, stripL] using h
        rcases ih h' with h1 | h1
        · left
          simpa [isPre, stripL] using h1
        · right
          simpa [isPre, stripL] using h1
      · exfalso
        simp [isPre, stripL, hd] at h

theorem mem_allSufs_iff {u b : List Char} :
    u ∈ allSufs b ↔ ∃ v, b = v ++ u := by
  induction b with
  | nil =>
    simp only [allSufs, List.mem_singleton]
    constructor
    · rintro rfl
      exact ⟨[], rfl⟩
    · rintro ⟨v, hv⟩
      exact (List.append_eq_nil.1 hv.symm).2
  | cons c t ih =>
    simp only [allSufs, List.mem_cons, ih]
    constructor
    · rintro (rfl | ⟨v, rfl⟩)
      · exact ⟨[], rfl⟩
      · exact ⟨c :: v, rfl⟩
    · rintro ⟨v, hv⟩
      cases v with
      | nil => left; simpa using hv.symm
      | cons x xs =>
        right
        simp only [List.cons_append, List.cons.injEq] at hv
        exact ⟨xs, hv.2⟩

/-- Lookup in an association list keyed by strings (models Python `dict`
membership and indexing). -/
def alookup {β : Type} (k : String) : List (String × β) → Option β
  | [] => none
  | (k', v) :: t => if k' = k then some v else alookup k t

/-- Remove every binding of a key (models Python `dict.pop(k, None)` on the
key side; dictionaries never hold duplicate keys). -/
def eraseK {β : Type} (k : String) : List (String × β) → List (String × β)
  | [] => []
  | (k', v) :: t => if k' = k then eraseK k t else (k', v) :: eraseK k t

theorem alookup_eraseK_self {β : Type} (k : String) (l : List (String × β)) :
    alookup k (eraseK k l) = none := by
  induction l with
  | nil => rfl
  | cons p t ih =>
    obtain ⟨k', v⟩ := p
    by_cases h : k' = k
    · simp [eraseK, h, ih]
    · simp [eraseK, h, alookup, ih]

theorem alookup_none_eraseK {β : Type} (k k' : String) (l : List (String × β))
    (h : alookup k l = none) : alookup k (eraseK k' l) = none := by
  induction l with
  | nil => rfl
  | cons p t ih =>
    obtain ⟨k0, v⟩ := p
    simp only [alookup] at h
    by_cases hk : k0 = k
    · simp [hk] at h
    · simp only [if_neg hk] at h
      by_cases hk' : k0 = k'
      · simp [eraseK, hk', ih h]
      · simp [eraseK, hk', alookup, hk, ih h]

/-- Pointwise update of a function-valued map (file system, process table). -/
def updF {α β : Type} [DecidableEq α] (f : α → β) (k : α) (v : β) : α → β :=
  fun q => if q = k then v else f q

/-! ## Source-URL rewriting (`transform_mediaset_url`, media.py lines 64-69)

The Python code searches for the regular expression
`(/mpd-cenc\.ism)/(web|ctv)?(\.mpd)` and, when found, substitutes every
non-overlapping occurrence with the literal `/main.ism/picky.m3u8`. -/

/-- The fixed head of the Mediaset manifest pattern. -/
def msPat : List Char := "/mpd-cenc.ism/".toList

/-- Replacement text used by `re.sub`. -/
def msRepl : List Char := "/main.ism/picky.m3u8".toList

/-- Full match alternative with the `web` tier. -/
def msF1 : List Char := "/mpd-cenc.ism/web.mpd".toList

/-- Full match alternative with the `ctv` tier. -/
def msF2 : List Char := "/mpd-cenc.ism/ctv.mpd".toList

/-- Full match alternative with the optional tier group empty. -/
def msF3 : List Char := "/mpd-cenc.ism/.mpd".toList

/-- Attempt the Mediaset pattern at the head of the list, returning the
remainder after the match.  The alternation order (`web`, `ctv`, empty)
follows the greedy optional group `(web|ctv)?` of the regex. -/
def matchMs (s : List Char) : Option (List Char) :=
  match stripL msPat s with
  | none => none
  | some r =>
    match stripL "web.mpd".toList r with
    | some r2 => some r2
    | none =>
      match stripL "ctv.mpd".toList r with
      | some r2 => some r2
      | none => stripL ".mpd".toList r

theorem matchMs_eq_some {s r : List Char} (h : matchMs s = some r) :
    s = msF1 ++ r ∨ s = msF2 ++ r ∨ s = msF3 ++ r := by
  unfold matchMs at h
  split at h
  · exact Option.noConfusion h
  next r0 h0 =>
    have hr0 : s = msPat ++ r0 := stripL_eq_some.1 h0
    split at h
    next r2 h1 =>
      simp only [Option.some.injEq] at h
      subst h
      left
      rw [hr0, stripL_eq_some.1 h1]
      rfl
    next h1 =>
      split at h
      next r2 h2 =>
        simp only [Option.some.injEq] at h
        subst h
        right; left
        rw [hr0, stripL_eq_some.1 h2]
        rfl
      next h2 =>
        right; right
        rw [hr0, stripL_eq_some.1 h]
        rfl

theorem matchMs_isSome_iff {s : List Char} :
    (matchMs s).isSome = true ↔
      isPre msF1 s = true ∨ isPre msF2 s = true ∨ isPre msF3 s = true := by
  have key : (matchMs s).isSome = true ↔
      (stripL msF1 s).isSome = true ∨ (stripL msF2 s).isSome = true ∨
      (stripL msF3 s).isSome = true := by
    have hf1 : stripL msF1 s = (stripL msPat s).bind (stripL "web.mpd".toList) :=
      stripL_append msPat "web.mpd".toList s
    have hf2 : stripL msF2 s = (stripL msPat s).bind (stripL "ctv.mpd".toList) :=
      stripL_append msPat "ctv.mpd".toList s
    have hf3 : stripL msF3 s = (stripL msPat s).bind (stripL ".mpd".toList) :=
      stripL_append msPat ".mpd".toList s
    rw [hf1, hf2, hf3]
    unfold matchMs
    cases h0 : stripL msPat s with
    | none => simp
    | some r0 =>
      cases hx : stripL "web.mpd".toList r0 <;>
        cases hy : stripL "ctv.mpd".toList r0 <;>
          cases hz : stripL ".mpd".toList r0 <;>
            simp_all
  simpa [isPre] using key

theorem matchMs_length {s r : List Char} (h : matchMs s = some r) :
    r.length + 18 ≤ s.length := by
  rcases matchMs_eq_some h with h1 | h1 | h1 <;>
    · rw [h1]
      simp [msF1, msF2, msF3, List.length_append]

/-- Leftmost, non-overlapping substitution of the Mediaset pattern by
`msRepl`, continuing after each replaced occurrence (the semantics of
`re.sub`). -/
def subAllMs : List Char → List Char
  | [] => []
  | c :: t =>
    match h : matchMs (c :: t) with
    | some r => msRepl ++ subAllMs r
    | none => c :: subAllMs t
termination_by s => s.length
decreasing_by
  · have := matchMs_length h
    simp only [List.length_cons] at this ⊢
    omega
  · simp

/-- Does the Mediaset pattern occur anywhere in the list?  Models
`pattern.search`. -/
def hasMs : List Char → Bool
  | [] => false
  | c :: t => (matchMs (c :: t)).isSome || hasMs t

/-- Embedding of `transform_mediaset_url` (media.py lines 64-69): if the
Mediaset manifest pattern occurs in the URL, substitute every occurrence
with the HLS playlist form, otherwise return the URL unchanged. -/
def transform_mediaset_url (url : String) : String :=
  if hasMs url.toList then String.mk (subAllMs url.toList) else url

theorem hasMs_cons (c : Char) (t : List Char) :
    hasMs (c :: t) = ((matchMs (c :: t)).isSome || hasMs t) := rfl

theorem subAllMs_nil : subAllMs [] = [] := by
  rw [subAllMs]

theorem subAllMs_cons_some {c : Char} {t r : List Char}
    (h : matchMs (c :: t) = some r) :
    subAllMs (c :: t) = msRepl ++ subAllMs r := by
  rw [subAllMs]
  split
  next r' h' =>
    rw [h] at h'
    cases h'
    rfl
  next h' =>
    rw [h] at h'
    cases h'

theorem subAllMs_cons_none {c : Char} {t : List Char}
    (h : matchMs (c :: t) = none) :
    subAllMs (c :: t) = c :: subAllMs t := by
  rw [subAllMs]
  split
  next r' h' =>
    rw [h] at h'
    cases h'
  next h' => rfl

/-- No nonempty trailing segment of the replacement text is compatible (in
either prefix direction) with any of the three full-match strings: checked
by evaluation. -/
theorem replIncompat : ∀ u ∈ allSufs msRepl, u = [] ∨
    (isPre msF1 u || isPre u msF1 || isPre msF2 u || isPre u msF2 ||
     isPre msF3 u || isPre u msF3) = false := by decide

/-- No nonempty trailing segment of a full-match string is compatible (in
either prefix direction) with the replacement text: checked by evaluation. -/
theorem fIncompat : ∀ f ∈ [msF1, msF2, msF3], ∀ u ∈ allSufs f, u = [] ∨
    (isPre u msRepl || isPre msRepl u) = false := by decide

theorem hasMs_append_false (a s : List Char)
    (h : ∀ u, u ≠ [] → u ∈ allSufs a → (matchMs (u ++ s)).isSome = false)
    (hs : hasMs s = false) : hasMs (a ++ s) = false := by
  induction a with
  | nil => simpa using hs
  | cons c t ih =>
    have h1 : (matchMs ((c :: t) ++ s)).isSome = false :=
      h (c :: t) (by simp) (by simp [allSufs])
    have h2 : hasMs (t ++ s) = false :=
      ih fun u hu hmem => h u hu (by simp [allSufs, hmem])
    rw [List.cons_append, hasMs_cons]
    rw [List.cons_append] at h1
    simp [h1, h2]

theorem hasMs_repl_append (s : List Char) (hs : hasMs s = false) :
    hasMs (msRepl ++ s) = false := by
  apply hasMs_append_false _ _ _ hs
  intro u hu hmem
  by_contra hcon
  rw [Bool.not_eq_false] at hcon
  have hrepl := replIncompat u hmem
  rcases hrepl with rfl | hfalse
  · exact hu rfl
  · rcases matchMs_isSome_iff.1 hcon with hF | hF | hF <;>
      rcases isPre_append_cases hF with h1 | h1 <;>
        simp [h1] at hfalse

/-- Any nonempty trailing segment of a full-match string that occurs as a
leading segment of a substitution output already occurs as a leading segment
of the substitution input: the replacement blocks inserted by `subAllMs`
cannot take part in a match. -/
theorem piece_isPre_subAllMs {u : List Char} (hne : u ≠ [])
    (hsuf : u ∈ allSufs msF1 ∨ u ∈ allSufs msF2 ∨ u ∈ allSufs msF3) :
    ∀ l : List Char, isPre u (subAllMs l) = true → isPre u l = true := by
  intro l
  induction l generalizing u with
  | nil =>
    intro h
    rw [subAllMs_nil, isPre_iff] at h
    obtain ⟨r, hr⟩ := h
    exact absurd (List.append_eq_nil.1 hr.symm).1 hne
  | cons c t ih =>
    intro h
    cases hm : matchMs (c :: t) with
    | some r =>
      exfalso
      rw [subAllMs_cons_some hm] at h
      have hinc : (isPre u msRepl || isPre msRepl u) = false := by
        rcases hsuf with hs1 | hs1 | hs1
        · rcases fIncompat msF1 (by simp) u hs1 with rfl | hf
          · exact absurd rfl hne
          · exact hf
        · rcases fIncompat msF2 (by simp) u hs1 with rfl | hf
          · exact absurd rfl hne
          · exact hf
        · rcases fIncompat msF3 (by simp) u hs1 with rfl | hf
          · exact absurd rfl hne
          · exact hf
      rcases isPre_append_cases h with h1 | h1 <;> simp [h1] at hinc
    | none =>
      rw [subAllMs_cons_none hm] at h
      cases u with
      | nil => exact absurd rfl hne
      | cons d u' =>
        have hd : d = c := by
          by_contra hdc
          simp [isPre, stripL, hdc] at h
        subst hd
        have h' : isPre u' (subAllMs t) = true := by
          simpa [isPre, stripL] using h
        by_cases hu' : u' = []
        · subst hu'
          simp [isPre, stripL]
        · have hsuf' : u' ∈ allSufs msF1 ∨ u' ∈ allSufs msF2 ∨ u' ∈ allSufs msF3 := by
            rcases hsuf with hs1 | hs1 | hs1
            · left
              rw [mem_allSufs_iff] at hs1 ⊢
              obtain ⟨v, hv⟩ := hs1
              exact ⟨v ++ [d], by simpa [List.append_assoc] using hv⟩
            · right; left
              rw [mem_allSufs_iff] at hs1 ⊢
              obtain ⟨v, hv⟩ := hs1
              exact ⟨v ++ [d], by simpa [List.append_assoc] using hv⟩
            · right; right
              rw [mem_allSufs_iff] at hs1 ⊢
              obtain ⟨v, hv⟩ := hs1
              exact ⟨v ++ [d], by simpa [List.append_assoc] using hv⟩
          have := ih hu' hsuf' h'
          simpa [isPre, stripL] using this

/-- The output of the substitution contains no occurrence of the Mediaset
pattern: substitution is exhaustive. -/
theorem hasMs_subAllMs (l : List Char) : hasMs (subAllMs l) = false := by
  suffices h : ∀ n (l : List Char), l.length ≤ n → hasMs (subAllMs l) = false from
    h l.length l le_rfl
  intro n
  induction n with
  | zero =>
    intro l hl
    have hnil : l = [] := List.length_eq_zero.1 (Nat.le_zero.1 hl)
    subst hnil
    simp [subAllMs_nil, hasMs]
  | succ n ih =>
    intro l hl
    cases l with
    | nil => simp [subAllMs_nil, hasMs]
    | cons c t =>
      cases hm : matchMs (c :: t) with
      | some r =>
        rw [subAllMs_cons_some hm]
        apply hasMs_repl_append
        have hlen := matchMs_length hm
        simp only [List.length_cons] at hl hlen
        exact ih r (by omega)
      | none =>
        rw [subAllMs_cons_none hm, hasMs_cons]
        simp only [List.length_cons] at hl
        have h2 : hasMs (subAllMs t) = false := ih t (by omega)
        have h1 : (matchMs (c :: subAllMs t)).isSome = false := by
          by_contra hcon
          rw [Bool.not_eq_false] at hcon
          have hagain : (matchMs (c :: t)).isSome = true := by
            rcases matchMs_isSome_iff.1 hcon with hF | hF | hF
            · refine matchMs_isSome_iff.2 (Or.inl ?_)
              exact piece_isPre_subAllMs (u := msF1) (by decide)
                (Or.inl (mem_allSufs_iff.2 ⟨[], rfl⟩))
                (c :: t) (by rwa [subAllMs_cons_none hm])
            · refine matchMs_isSome_iff.2 (Or.inr (Or.inl ?_))
              exact piece_isPre_subAllMs (u := msF2) (by decide)
                (Or.inr (Or.inl (mem_allSufs_iff.2 ⟨[], rfl⟩)))
                (c :: t) (by rwa [subAllMs_cons_none hm])
            · refine matchMs_isSome_iff.2 (Or.inr (Or.inr ?_))
              exact piece_isPre_subAllMs (u := msF3) (by decide)
                (Or.inr (Or.inr (mem_allSufs_iff.2 ⟨[], rfl⟩)))
                (c :: t) (by rwa [subAllMs_cons_none hm])
          rw [hm] at hagain
          exact absurd hagain (by simp)
        simp [h1, h2]

theorem subAllMs_of_not_hasMs {l : List Char} (h : hasMs l = false) :
    subAllMs l = l := by
  induction l with
  | nil => exact subAllMs_nil
  | cons c t ih =>
    rw [hasMs_cons, Bool.or_eq_false_iff] at h
    obtain ⟨h1, h2⟩ := h
    have hm : matchMs (c :: t) = none := by
      cases hm0 : matchMs (c :: t) with
      | none => rfl
      | some r => rw [hm0] at h1; exact absurd h1 (by simp)
    rw [subAllMs_cons_none hm, ih h2]

/-- Claim C10: the source-URL rewriting function is the identity on every
URL not containing the Mediaset streaming-manifest pattern, and it is
idempotent: applying it twice yields the same result as applying it once. -/
theorem transform_mediaset_url_c10 (url : String) :
    (hasMs url.toList = false → transform_mediaset_url url = url) ∧
    transform_mediaset_url (transform_mediaset_url url) = transform_mediaset_url url := by
  have hdata : url.toList = url.data := rfl
  constructor
  · intro h
    rw [hdata] at h
    simp [transform_mediaset_url, hdata, h]
  · by_cases h : hasMs url.data
    · have h2 : transform_mediaset_url url = String.mk (subAllMs url.data) := by
        simp [transform_mediaset_url, hdata, h]
      rw [h2]
      have h3 : (String.mk (subAllMs url.data)).toList = subAllMs url.data := rfl
      simp [transform_mediaset_url, h3, hasMs_subAllMs]
    · rw [Bool.not_eq_true] at h
      have h2 : transform_mediaset_url url = url := by
        simp [transform_mediaset_url, hdata, h]
      rw [h2, h2]

/-- Witness for C10 at a concrete URL without the pattern. -/
theorem transform_mediaset_url_c10_witness :
    transform_mediaset_url "https://example.com/video.mpd" =
      "https://example.com/video.mpd" :=
  (transform_mediaset_url_c10 "https://example.com/video.mpd").1 (by decide)

/-! ## Download progress parsing (media.py lines 224-232)

The Python code applies
`re.search(r'\[download\]\s+([0-9.]+)\%\s+of\s+~?\s*([\d.]+\w+)\s+at\s+([\d.]+\w+/s)\s+ETA\s+([\d:]+)', line)`
and extracts `int(float(group1))` as the whole percent.  The regex is
embedded as a backtracking matcher over character lists: each matcher step
returns the list of possible continuation states in the priority order the
regex engine explores them (greedy quantifiers longest-first, leftmost
search position first), so taking the head of the result list reproduces
the match Python picks. -/

/-- A matcher state: the capture groups collected so far and the input
remaining. -/
abbrev MSt := List (List Char) × List Char

/-- A matcher maps a state to its possible successor states, in priority
order. -/
abbrev Matcher := MSt → List MSt

/-- Match a literal string. -/
def mlit (pat : String) : Matcher := fun gs =>
  match stripL pat.toList gs.2 with
  | some r => [(gs.1, r)]
  | none => []

/-- Match one-or-more characters of a class, greedily (longest first). -/
def mcls (p : Char → Bool) : Matcher := fun gs =>
  let run := gs.2.takeWhile p
  (List.range run.length).map fun k => (gs.1, gs.2.drop (run.length - k))

/-- Match zero-or-more characters of a class, greedily (longest first). -/
def mclsStar (p : Char → Bool) : Matcher := fun gs =>
  let run := gs.2.takeWhile p
  (List.range (run.length + 1)).map fun k => (gs.1, gs.2.drop (run.length - k))

/-- Match an optional literal, greedily (present first). -/
def mopt (pat : String) : Matcher := fun gs =>
  match stripL pat.toList gs.2 with
  | some r => [(gs.1, r), gs]
  | none => [gs]

/-- Sequence two matchers; `flatMap` preserves backtracking priority. -/
def mseq (a b : Matcher) : Matcher := fun gs => (a gs).flatMap b

/-- Run an inner matcher and record the consumed text as a capture group. -/
def mgrp (inner : Matcher) : Matcher := fun gs =>
  (inner gs).map fun gs2 =>
    (gs2.1 ++ [gs.2.take (gs.2.length - gs2.2.length)], gs2.2)

/-- Python `\s` (ASCII whitespace; the inputs parsed here are ASCII). -/
def pySpace (c : Char) : Bool :=
  c = ' ' || c = '\t' || c = '\n' || c = '\r' || c = '\x0b' || c = '\x0c'

/-- Python `\w` (ASCII word character). -/
def pyWord (c : Char) : Bool := c.isAlphanum || c = '_'

/-- Python `[0-9.]` and `[\d.]`. -/
def digitDot (c : Char) : Bool := c.isDigit || c = '.'

/-- Python `[\d:]`. -/
def digitColon (c : Char) : Bool := c.isDigit || c = ':'

/-- The full download-progress frame regex, with its four capture groups. -/
def frameMatcher : Matcher :=
  mseq (mlit "[download]") <|
    mseq (mcls pySpace) <|
      mseq (mgrp (mcls digitDot)) <|
        mseq (mlit "%") <|
          mseq (mcls pySpace) <|
            mseq (mlit "of") <|
              mseq (mcls pySpace) <|
                mseq (mopt "~") <|
                  mseq (mclsStar pySpace) <|
                    mseq (mgrp (mseq (mcls digitDot) (mcls pyWord))) <|
                      mseq (mcls pySpace) <|
                        mseq (mlit "at") <|
                          mseq (mcls pySpace) <|
                            mseq (mgrp (mseq (mcls digitDot)
                                (mseq (mcls pyWord) (mlit "/s")))) <|
                              mseq (mcls pySpace) <|
                                mseq (mlit "ETA") <|
                                  mseq (mcls pySpace)
                                    (mgrp (mcls digitColon))

/-- Try the frame regex anchored at the start of `s`; return the captures
of the highest-priority match. -/
def searchAt (s : List Char) : Option (List (List Char)) :=
  match frameMatcher ([], s) with
  | [] => none
  | gs :: _ => some gs.1

/-- `re.search` for the frame regex: leftmost position first. -/
def searchFrames (s : List Char) : Option (List (List Char)) :=
  match s with
  | [] => searchAt []
  | _ :: t =>
    match searchAt s with
    | some g => some g
    | none => searchFrames t

/-- Digits of a decimal integer, most significant first. -/
def digitsToNat (l : List Char) : ℕ :=
  l.foldl (fun a c => a * 10 + (c.toNat - '0'.toNat)) 0

/-- Model of Python `int(float(x))` for a capture of class `[0-9.]+`:
`float` raises `ValueError` (`none` here) when the capture has more than
one dot or no digit; otherwise the value truncates to the digits before
the first dot.  (Binary floating-point rounding is abstracted away: the
captures are short decimal literals.) -/
def floatIntVal (l : List Char) : Option ℕ :=
  if l.count '.' ≤ 1 && l.any Char.isDigit then
    some (digitsToNat (l.takeWhile (fun c => c ≠ '.')))
  else none

/-- A parsed download-progress frame: whole percent plus the textual size,
rate and ETA captures. -/
structure DlSnapshot where
  percent : ℕ
  size : String
  rate : String
  eta : String
deriving DecidableEq

/-- The download-line parser of the spec (§4.1): `Except.error` models the
`ValueError` Python would raise from `int(float(...))` on a degenerate
percent capture; `Except.ok none` is a line without a progress frame. -/
def parseDownloadLine (line : String) : Except Unit (Option DlSnapshot) :=
  match searchFrames line.toList with
  | none => .ok none
  | some gs =>
    match gs with
    | [g1, g2, g3, g4] =>
      match floatIntVal g1 with
      | some pct => .ok (some ⟨pct, String.mk g2, String.mk g3, String.mk g4⟩)
      | none => .error ()
    | _ => .error ()

/-! ## Upload progress computation (media.py lines 154-168)

The source computes `speed = bytes_since_last / elapsed_time if elapsed_time
> 0 else 0` and `percentage = int(status.resumable_progress / media.size() *
100)`, where `/` and `*` on Python numbers are IEEE-754 binary64 operations:
each returns the representable value nearest the exact result, ties going to
the even significand, and `int()` truncates toward zero.  The embedding
rounds every intermediate result to 53 significant binary digits with
round-to-nearest, ties-to-even; the exponent is unbounded, which coincides
with binary64 on every magnitude this computation produces (no overflow and
no subnormals). -/

/-- Floor of the base-two logarithm, with explicit fuel. -/
def log2F : ℕ → ℕ → ℕ
  | 0, _ => 0
  | fuel + 1, n => if 2 ≤ n then log2F fuel (n / 2) + 1 else 0

/-- `nlog2 n` is the floor of the base-two logarithm of `n` for `n ≥ 1`. -/
def nlog2 (n : ℕ) : ℕ := log2F n n

/-- Round the positive rational `n / d` to 53 significant binary digits,
round-to-nearest, ties-to-even: the rounded value is `m * 2 ^ k` for the
returned pair `(m, k)`. -/
def roundPair (n d : ℕ) : ℕ × ℤ :=
  let e : ℤ := if d * 2 ^ nlog2 n ≤ n * 2 ^ nlog2 d then (nlog2 n : ℤ) - nlog2 d
    else (nlog2 n : ℤ) - nlog2 d - 1
  let t : ℤ := 52 - e
  let num := n * 2 ^ t.toNat
  let den := d * 2 ^ (-t).toNat
  let fl := num / den
  let r2 := 2 * (num % den)
  let m := if r2 < den then fl else if den < r2 then fl + 1
    else if fl % 2 = 0 then fl else fl + 1
  (m, e - 52)

/-- The rational value of a significand-exponent pair. -/
def qOfPair (p : ℕ × ℤ) : ℚ := (p.1 : ℚ) * (2 : ℚ) ^ p.2

/-- The IEEE-754 binary64 rounding of an exact rational value (round to
nearest, ties to even, unbounded exponent). -/
def rnd53 (q : ℚ) : ℚ :=
  if q = 0 then 0
  else if q < 0 then -qOfPair (roundPair (-q).num.toNat (-q).den)
  else qOfPair (roundPair q.num.toNat q.den)

/-- Python float division of exactly known operands: the correctly rounded
quotient. -/
def fdiv (a b : ℚ) : ℚ := rnd53 (a / b)

/-- Python float multiplication of exactly known operands: the correctly
rounded product. -/
def fmul (a b : ℚ) : ℚ := rnd53 (a * b)

/-- Python `int()` on a float: truncation toward zero. -/
def intTrunc (q : ℚ) : ℤ := if q < 0 then -⌊-q⌋ else ⌊q⌋

/-- An upload progress snapshot: integer percent and instantaneous rate. -/
structure UpSnapshot where
  percentage : ℤ
  speed : ℚ
deriving DecidableEq

/-- Embedding of the upload progress computation (media.py lines 157-162):
`speed = bytes_since_last / elapsed_time if elapsed_time > 0 else 0` and
`percentage = int(resumable_progress / media.size() * 100)`, with the two
divisions and the multiplication performed in binary64 and `int()`
truncating toward zero. -/
def parseUploadStatus (bytesDone bytesTotal previousBytesDone : ℕ)
    (elapsed : ℚ) : UpSnapshot :=
  { speed := if 0 < elapsed then
      fdiv ((bytesDone : ℚ) - (previousBytesDone : ℚ)) elapsed else 0
    percentage :=
      intTrunc (fmul (fdiv (bytesDone : ℚ) (bytesTotal : ℚ)) 100) }

theorem qOfPair_negExp (m k : ℕ) : qOfPair (m, -(k : ℤ)) = (m : ℚ) / 2 ^ k := by
  unfold qOfPair
  rw [zpow_neg, zpow_natCast, div_eq_mul_inv]

theorem rnd53_eval (q : ℚ) (n d : ℕ) (h0 : 0 < q) (hn : q.num.toNat = n)
    (hd : q.den = d) : rnd53 q = qOfPair (roundPair n d) := by
  unfold rnd53
  rw [if_neg h0.ne', if_neg (not_lt.2 h0.le), hn, hd]

/-- `int(29 / 100 * 100)` computed in binary64 is `28`: the double nearest
`0.29` lies below it, and the rounded product falls just under `29`. -/
theorem pct29_eval : intTrunc (fmul (fdiv (29 : ℚ) (100 : ℚ)) 100) = 28 := by
  have hq : ((29 : ℚ) / 100) = Rat.divInt 29 100 := by
    rw [Rat.divInt_eq_div]
    norm_num
  have h1 : fdiv (29 : ℚ) (100 : ℚ) = qOfPair (roundPair 29 100) := by
    unfold fdiv
    exact rnd53_eval _ 29 100 (by norm_num) (by rw [hq]; decide) (by rw [hq]; decide)
  have h2 : roundPair 29 100 = (5224175567749775, -54) := by decide
  have h3 : qOfPair (5224175567749775, -54) * 100 =
      Rat.divInt 522417556774977500 (2 ^ 54) := by
    have hk : ((-54 : ℤ)) = -((54 : ℕ) : ℤ) := by norm_num
    rw [hk, qOfPair_negExp, Rat.divInt_eq_div]
    push_cast
    ring
  have h4 : fmul (qOfPair (5224175567749775, -54)) 100 =
      qOfPair (roundPair 130604389193744375 4503599627370496) := by
    unfold fmul
    rw [h3]
    exact rnd53_eval _ _ _ (by decide) (by decide) (by decide)
  have h5 : roundPair 130604389193744375 4503599627370496 =
      (8162774324609023, -48) := by decide
  have h6 : intTrunc (qOfPair (8162774324609023, -48)) = 28 := by
    have hv : qOfPair (8162774324609023, -48) =
        Rat.divInt 8162774324609023 (2 ^ 48) := by
      have hk : ((-48 : ℤ)) = -((48 : ℕ) : ℤ) := by norm_num
      rw [hk, qOfPair_negExp, Rat.divInt_eq_div]
      push_cast
      ring
    unfold intTrunc
    rw [hv, if_neg (by decide)]
    decide
  rw [h1, h2, h4, h5]
  exact h6

/-- `int(50 / 100 * 100)` computed in binary64 is exactly `50`: every
intermediate value is representable. -/
theorem pct50_eval : intTrunc (fmul (fdiv (50 : ℚ) (100 : ℚ)) 100) = 50 := by
  have hq : ((50 : ℚ) / 100) = Rat.divInt 50 100 := by
    rw [Rat.divInt_eq_div]
    norm_num
  have h1 : fdiv (50 : ℚ) (100 : ℚ) = qOfPair (roundPair 1 2) := by
    unfold fdiv
    exact rnd53_eval _ 1 2 (by norm_num) (by rw [hq]; decide) (by rw [hq]; decide)
  have h2 : roundPair 1 2 = (4503599627370496, -53) := by decide
  have h3 : qOfPair (4503599627370496, -53) * 100 =
      Rat.divInt 450359962737049600 (2 ^ 53) := by
    have hk : ((-53 : ℤ)) = -((53 : ℕ) : ℤ) := by norm_num
    rw [hk, qOfPair_negExp, Rat.divInt_eq_div]
    push_cast
    ring
  have h4 : fmul (qOfPair (4503599627370496, -53)) 100 =
      qOfPair (roundPair 50 1) := by
    unfold fmul
    rw [h3]
    exact rnd53_eval _ _ _ (by decide) (by decide) (by decide)
  have h5 : roundPair 50 1 = (7036874417766400, -47) := by decide
  have h6 : intTrunc (qOfPair (7036874417766400, -47)) = 50 := by
    have hv : qOfPair (7036874417766400, -47) =
        Rat.divInt 7036874417766400 (2 ^ 47) := by
      have hk : ((-47 : ℤ)) = -((47 : ℕ) : ℤ) := by norm_num
      rw [hk, qOfPair_negExp, Rat.divInt_eq_div]
      push_cast
      ring
    unfold intTrunc
    rw [hv, if_neg (by decide)]
    decide
  rw [h1, h2, h4, h5]
  exact h6

/-- `(50 - 0) / 2` computed in binary64 is exactly `25`. -/
theorem spd50_eval : fdiv ((50 : ℚ) - (0 : ℚ)) 2 = 25 := by
  have hq : (((50 : ℚ) - (0 : ℚ)) / 2) = Rat.divInt 50 2 := by
    rw [Rat.divInt_eq_div]
    norm_num
  have h1 : fdiv ((50 : ℚ) - (0 : ℚ)) 2 = qOfPair (roundPair 25 1) := by
    unfold fdiv
    exact rnd53_eval _ 25 1 (by norm_num) (by rw [hq]; decide) (by rw [hq]; decide)
  have h2 : roundPair 25 1 = (7036874417766400, -48) := by decide
  have hk : ((-48 : ℤ)) = -((48 : ℕ) : ℤ) := by norm_num
  rw [h1, h2, hk, qOfPair_negExp]
  norm_num

/-- Counterexample to claim C5 as stated: the program computes the
percentage as `int(bytesDone / bytesTotal * 100)` in binary64, which at
`bytesDone = 29, bytesTotal = 100` yields `28`, while the claimed exact
`floor(bytesDone * 100 / bytesTotal)` is `29`. -/
theorem parseUploadStatus_c5_counterexample :
    (parseUploadStatus 29 100 0 2).percentage = 28 ∧
    ⌊((29 : ℚ) * 100) / (100 : ℚ)⌋ = 29 := by
  constructor
  · show intTrunc (fmul (fdiv ((29 : ℕ) : ℚ) ((100 : ℕ) : ℚ)) 100) = 28
    push_cast
    exact pct29_eval
  · norm_num

/-- Claim C5 (amended): the rate is the binary64 quotient of the exact byte
delta by the elapsed time, clamped to zero for a non-positive elapsed time,
and the percentage is the `int()` truncation of the binary64 evaluation of
`bytesDone / bytesTotal * 100`; at the documented input `(50, 100, 0, 2)`
every intermediate is representable and the result is percent 50 and rate
25 bytes per second. -/
theorem parseUploadStatus_c5 :
    (∀ (d t p : ℕ) (e : ℚ), e ≤ 0 → (parseUploadStatus d t p e).speed = 0) ∧
    (∀ (d t p : ℕ) (e : ℚ), 0 < e →
      (parseUploadStatus d t p e).speed = rnd53 (((d : ℚ) - (p : ℚ)) / e) ∧
      (parseUploadStatus d t p e).percentage =
        intTrunc (rnd53 (rnd53 ((d : ℚ) / (t : ℚ)) * 100))) ∧
    parseUploadStatus 50 100 0 2 = ⟨50, 25⟩ := by
  refine ⟨?_, ?_, ?_⟩
  · intro d t p e he
    unfold parseUploadStatus
    dsimp only
    rw [if_neg (not_lt.2 he)]
  · intro d t p e he
    constructor
    · unfold parseUploadStatus
      dsimp only
      rw [if_pos he]
      rfl
    · rfl
  · unfold parseUploadStatus
    rw [if_pos (by norm_num : (0 : ℚ) < 2)]
    congr 1
    · push_cast
      exact pct50_eval
    · push_cast
      exact spd50_eval

/-- Witness for the amended C5: the clamp at a negative elapsed time and the
binary64 formulas at `(29, 100, 0, 2)`. -/
theorem parseUploadStatus_c5_witness :
    ((-1 : ℚ) ≤ 0 ∧ (parseUploadStatus 7 100 3 (-1)).speed = 0) ∧
    ((0 : ℚ) < 2 ∧
      (parseUploadStatus 29 100 0 2).speed =
        rnd53 ((((29 : ℕ) : ℚ) - ((0 : ℕ) : ℚ)) / 2) ∧
      (parseUploadStatus 29 100 0 2).percentage =
        intTrunc (rnd53 (rnd53 (((29 : ℕ) : ℚ) / ((100 : ℕ) : ℚ)) * 100))) :=
  ⟨⟨by norm_num, parseUploadStatus_c5.1 7 100 3 (-1) (by norm_num)⟩,
   ⟨by norm_num, (parseUploadStatus_c5.2.1 29 100 0 2 (by norm_num)).1,
    (parseUploadStatus_c5.2.1 29 100 0 2 (by norm_num)).2⟩⟩

/-- Claim C6: the download-line parser yields nothing on lines without a
progress frame, and yields a snapshot with percent 42 on the documented
example line. -/
theorem parseDownloadLine_c6 :
    parseDownloadLine "[download]  42.0% of ~100.0MiB at 5.0MiB/s ETA 00:10" =
      .ok (some ⟨42, "100.0MiB", "5.0MiB/s", "00:10"⟩) ∧
    (∀ line : String, searchFrames line.toList = none →
      parseDownloadLine line = .ok none) := by
  constructor
  · rfl
  · intro line h
    unfold parseDownloadLine
    rw [h]

/-- Witness for C6: a line without a progress frame parses to nothing. -/
theorem parseDownloadLine_c6_witness :
    parseDownloadLine "hello world" = .ok none :=
  parseDownloadLine_c6.2 "hello world" (by rfl)

/-! ## Registry state and cancellation (media.py lines 47-50 and 353-376)

The module-level dictionaries `active_processes` (task id to a pair of a
process handle and the output filename) and `progress_messages` (task id to
the progress message) become association lists; a process handle is
abstracted to the list of process ids of the spawned process and all of its
descendants (the tree `psutil` would enumerate at termination time); the
file system becomes a Boolean-valued predicate on paths, and `dead` records
which process ids have been terminated (or found already gone). -/

structure St where
  active_processes : List (String × (List ℕ × String))
  progress_messages : List (String × ℕ)
  files : String → Bool
  dead : ℕ → Bool

/-- What `cancel_any_download` answers the operator. -/
inductive CancelReply
  | cancelledMsg (filename : String)
  | silent
  | alreadyFinished
  | noActiveTask
deriving DecidableEq

/-- Embedding of `cancel_any_download` (media.py lines 353-376): pop the
task from both dictionaries; when a process handle was present, terminate
the process tree, delete the partial file if present, and (when the
progress message was also present) confirm the cancellation; otherwise
report `Descarga ya finalizada` when only the message was present, and
`No se encontro una descarga activa` when neither was. -/
def cancel_any_download (st : St) (task_id : String) : St × CancelReply :=
  match alookup task_id st.active_processes, alookup task_id st.progress_messages with
  | some (tree, filename), msg =>
    ({ active_processes := eraseK task_id st.active_processes
       progress_messages := eraseK task_id st.progress_messages
       files := updF st.files filename false
       dead := fun q => if q ∈ tree then true else st.dead q },
     match msg with
     | some _ => .cancelledMsg filename
     | none => .silent)
  | none, some _ =>
    ({ st with active_processes := eraseK task_id st.active_processes
               progress_messages := eraseK task_id st.progress_messages },
     .alreadyFinished)
  | none, none =>
    ({ st with active_processes := eraseK task_id st.active_processes
               progress_messages := eraseK task_id st.progress_messages },
     .noActiveTask)

/-- Claim C4: cancel removes the task from both registry structures; when a
process handle is present it marks the whole recorded process tree dead and
deletes the partial artifact file; and a second cancel on the same id
reports that no active task was found. -/
theorem cancel_any_download_erases (st : St) (tid : String) :
    (cancel_any_download st tid).1.active_processes =
      eraseK tid st.active_processes ∧
    (cancel_any_download st tid).1.progress_messages =
      eraseK tid st.progress_messages := by
  unfold cancel_any_download
  cases h1 : alookup tid st.active_processes with
  | some v =>
    obtain ⟨tree, fn⟩ := v
    exact ⟨rfl, rfl⟩
  | none =>
    cases h2 : alookup tid st.progress_messages with
    | some m => exact ⟨rfl, rfl⟩
    | none => exact ⟨rfl, rfl⟩

theorem cancel_any_download_reply_none {st : St} {tid : String}
    (h1 : alookup tid st.active_processes = none)
    (h2 : alookup tid st.progress_messages = none) :
    (cancel_any_download st tid).2 = CancelReply.noActiveTask := by
  unfold cancel_any_download
  rw [h1, h2]

theorem cancel_any_download_c4 (st : St) (tid : String) :
    alookup tid (cancel_any_download st tid).1.active_processes = none ∧
    alookup tid (cancel_any_download st tid).1.progress_messages = none ∧
    (∀ tree fn, alookup tid st.active_processes = some (tree, fn) →
      (∀ q ∈ tree, (cancel_any_download st tid).1.dead q = true) ∧
      (cancel_any_download st tid).1.files fn = false) ∧
    (cancel_any_download (cancel_any_download st tid).1 tid).2 =
      CancelReply.noActiveTask := by
  have hactive : alookup tid (cancel_any_download st tid).1.active_processes = none := by
    rw [(cancel_any_download_erases st tid).1]
    exact alookup_eraseK_self tid _
  have hmsg : alookup tid (cancel_any_download st tid).1.progress_messages = none := by
    rw [(cancel_any_download_erases st tid).2]
    exact alookup_eraseK_self tid _
  refine ⟨hactive, hmsg, ?_, cancel_any_download_reply_none hactive hmsg⟩
  intro tree fn h
  have hred : (cancel_any_download st tid).1.dead =
      (fun q => if q ∈ tree then true else st.dead q) ∧
      (cancel_any_download st tid).1.files = updF st.files fn false := by
    unfold cancel_any_download
    rw [h]
    exact ⟨rfl, rfl⟩
  constructor
  · intro q hq
    rw [hred.1]
    simp [hq]
  · rw [hred.2]
    simp [updF]

/-- Witness for C4 at a concrete registry state holding one task with a
process handle. -/
theorem cancel_any_download_c4_witness :
    (∀ q ∈ [7, 8], (cancel_any_download
        ⟨[("t", ([7, 8], "f.mp4"))], [("t", 5)], fun _ => true, fun _ => false⟩
        "t").1.dead q = true) ∧
    (cancel_any_download
        ⟨[("t", ([7, 8], "f.mp4"))], [("t", 5)], fun _ => true, fun _ => false⟩
        "t").1.files "f.mp4" = false :=
  (cancel_any_download_c4
    ⟨[("t", ([7, 8], "f.mp4"))], [("t", 5)], fun _ => true, fun _ => false⟩
    "t").2.2.1 [7, 8] "f.mp4" (by rfl)

/-! ## The task pipeline (`download_and_upload_task`, media.py lines 189-283,
and `upload_with_progress`, lines 129-187)

The pipeline is a function of an oracle describing everything external: the
spawned process (its pid tree, the chunks read from its combined output, its
exit code, its stderr, whether the output file was produced), exceptions
raised at the awaited calls, the chunked upload (credential availability,
the successive `next_chunk` outcomes with their wall-clock times), rendering
failures of the notification sink, and the iteration indices at which an
operator cancel request runs concurrently.  Cancellation is cooperative: a
cancel event runs `cancel_any_download` against the shared state just
before a loop iteration observes the registries. -/

/-- Text after the last carriage return: `buffer.split(chr(13))[-1]`. -/
def afterLastCR (l : List Char) : List Char :=
  (l.reverse.takeWhile (fun c => c ≠ '\r')).reverse

/-- Python `str.strip()` restricted to ASCII whitespace. -/
def pyStrip (l : List Char) : List Char :=
  ((l.dropWhile pySpace).reverse.dropWhile pySpace).reverse

/-- One outcome of `request.next_chunk()`: an intermediate status carrying
the bytes uploaded so far and the wall-clock time of the observation, the
terminal response carrying the Drive file id and view link, or a raised
exception. -/
inductive ChunkEv
  | status (resumableProgress : ℕ) (now : ℚ)
  | done (fileId viewLink : String)
  | raiseEv
deriving DecidableEq

/-- Result of the upload driver. -/
structure UpRes where
  response : Option (String × String)
  st : St
  chunks : ℕ
  renders : List UpSnapshot
  warns : ℕ

/-- The chunked upload loop (media.py lines 149-177).  Before each
iteration an operator cancel may run (`cAt`); the loop then performs the
cancellation check of line 150 (task id gone from `active_processes` and
the message id gone from the tracked progress messages), then awaits the
next chunk.  Each intermediate status computes a progress snapshot and
attempts a render whose failure (`rf`) is caught and only logged
(`warns`).  An exhausted event list models an upload whose terminal
response never arrived inside the modelled window. -/
def upLoop (tid : String) (msgId mediaSize : ℕ) (rf : ℕ → Bool) (cAt : Option ℕ) :
    ℕ → St → ℕ → ℚ → ℕ → List UpSnapshot → ℕ → List ChunkEv → UpRes
  | i, st, lastBytes, lastTime, n, rens, warns, evs =>
    let st1 := if cAt = some i then (cancel_any_download st tid).1 else st
    if alookup tid st1.active_processes = none ∧
        (st1.progress_messages.map Prod.snd).contains msgId = false then
      ⟨none, st1, n, rens, warns⟩
    else
      match evs with
      | [] => ⟨none, st1, n, rens, warns⟩
      | ev :: rest =>
        match ev with
        | .raiseEv => ⟨none, st1, n + 1, rens, warns⟩
        | .done fid link => ⟨some (fid, link), st1, n + 1, rens, warns⟩
        | .status b now =>
          upLoop tid msgId mediaSize rf cAt (i + 1) st1 b now (n + 1)
            (rens ++ [parseUploadStatus b mediaSize lastBytes (now - lastTime)])
            (warns + (if rf rens.length then 1 else 0)) rest

/-- The upload driver (`upload_with_progress`): obtain a credential first;
without one, report and return `none` before any chunk is attempted. -/
def uploadRun (tid : String) (msgId : ℕ) (auth : Bool) (mediaSize : ℕ)
    (startTime : ℚ) (rf : ℕ → Bool) (cAt : Option ℕ) (st : St)
    (evs : List ChunkEv) : UpRes :=
  if auth then upLoop tid msgId mediaSize rf cAt 0 st 0 startTime 0 [] 0 evs
  else ⟨none, st, 0, [], 0⟩

/-- How the download read loop ended. -/
inductive LoopExit
  | natural
  | cancelledBreak
  | raised
deriving DecidableEq

/-- Result of the download read loop. -/
structure DlRes where
  st : St
  renders : List ℕ
  warns : ℕ
  exit : LoopExit

/-- The download read loop (media.py lines 213-245).  Before each iteration
an operator cancel may run (`cAt`); the loop then performs the line 216
membership check, awaits a read (which may raise, `rAt`), and on end of
output breaks naturally.  A chunk is appended to the carry buffer; when a
carriage return is present the text after the last one is matched against
the frame regex, and a strictly increased whole percent is rendered (render
failures `rf` are caught and only logged).  A degenerate percent capture
(Python `float` raising) aborts the pipeline like any other exception. -/
def dlLoop (tid : String) (rf : ℕ → Bool) (cAt rAt : Option ℕ) :
    ℕ → St → List Char → ℤ → List ℕ → ℕ → List String → DlRes
  | i, st, buf, lastPct, rens, warns, chunks =>
    let st1 := if cAt = some i then (cancel_any_download st tid).1 else st
    if alookup tid st1.active_processes = none then
      ⟨st1, rens, warns, .cancelledBreak⟩
    else if rAt = some i then
      ⟨st1, rens, warns, .raised⟩
    else
      match chunks with
      | [] => ⟨st1, rens, warns, .natural⟩
      | ch :: rest =>
        let buf1 := buf ++ ch.toList
        if '\r' ∈ buf1 then
          match searchFrames (afterLastCR buf1) with
          | some [g1, _, _, _] =>
            match floatIntVal g1 with
            | none => ⟨st1, rens, warns, .raised⟩
            | some pct =>
              if (pct : ℤ) > lastPct then
                dlLoop tid rf cAt rAt (i + 1) st1 (afterLastCR buf1) (pct : ℤ)
                  (rens ++ [pct]) (warns + (if rf rens.length then 1 else 0)) rest
              else
                dlLoop tid rf cAt rAt (i + 1) st1 (afterLastCR buf1) lastPct
                  rens warns rest
          | some _ => ⟨st1, rens, warns, .raised⟩
          | none =>
            dlLoop tid rf cAt rAt (i + 1) st1 (afterLastCR buf1) lastPct rens warns rest
        else
          dlLoop tid rf cAt rAt (i + 1) st1 buf1 lastPct rens warns rest

/-- Terminal outcome of a task run. -/
inductive Outcome
  | completed (fileId viewLink : String)
  | uploadNone
  | downloadFailed (reported : Option String)
  | cancelled
  | exception
deriving DecidableEq

/-- Observable result of a task run: the shared state, the outcome, ghost
observations of the download loop exit, the rendered whole percents of the
download phase, the rendered upload snapshots, whether and on which path
the upload driver was entered, the number of chunk requests, and the count
of swallowed render failures. -/
structure RunRes where
  st : St
  outcome : Outcome
  dlExit : Option LoopExit
  dlRenders : List ℕ
  upRenders : List UpSnapshot
  uploadAttempted : Bool
  uploadPath : Option String
  chunksAttempted : ℕ
  warnings : ℕ

/-- The oracle: everything the environment decides during one task run. -/
structure Oracle where
  task_id : String
  msgId : ℕ
  file_name : String
  url : String
  editInitialFails : Bool
  spawnFails : Bool
  procTree : List ℕ
  chunks : List String
  readFailsAt : Option ℕ
  cancelAt : Option ℕ
  dlRenderFails : ℕ → Bool
  returncode : ℤ
  produced : Bool
  stderr : String
  editCompleteFails : Bool
  auth : Bool
  mediaSize : ℕ
  startTime : ℚ
  chunkEvents : List ChunkEv
  upCancelAt : Option ℕ
  upRenderFails : ℕ → Bool
  editFinalFails : Bool

/-- The `finally` block of the pipeline (media.py lines 279-283): drop the
progress message entry and delete the artifact file if present. -/
def finallyStep (tid fn : String) (st : St) : St :=
  let st1 : St := { st with progress_messages := eraseK tid st.progress_messages }
  if st1.files fn then { st1 with files := updF st1.files fn false } else st1

/-- The body of `download_and_upload_task` before its `finally` block
(media.py lines 193-278).  Exceptions at the initial message edit, the
process spawn, a read, a degenerate float, the completion edit or the final
edit all fall to the `except` handler (outcome `exception`).  The task is
registered after the spawn; if the output file is produced it exists from
then on.  After the loop, line 249 returns silently when the task was
cancelled, line 253 pops the registry entry, and line 255 branches on exit
code and file existence. -/
def runBody (st0 : St) (o : Oracle) : RunRes :=
  let fn := o.file_name ++ ".mp4"
  if o.editInitialFails then
    ⟨st0, .exception, none, [], [], false, none, 0, 0⟩
  else if o.spawnFails then
    ⟨st0, .exception, none, [], [], false, none, 0, 0⟩
  else
    let st1 : St :=
      { st0 with
        active_processes :=
          (o.task_id, (o.procTree, fn)) :: eraseK o.task_id st0.active_processes
        files := if o.produced then updF st0.files fn true else st0.files }
    let L := dlLoop o.task_id o.dlRenderFails o.cancelAt o.readFailsAt
      0 st1 [] (-1) [] 0 o.chunks
    match L.exit with
    | .raised => ⟨L.st, .exception, some .raised, L.renders, [], false, none, 0, L.warns⟩
    | e =>
      if alookup o.task_id L.st.active_processes = none then
        ⟨L.st, .cancelled, some e, L.renders, [], false, none, 0, L.warns⟩
      else
        let st3 : St :=
          { L.st with active_processes := eraseK o.task_id L.st.active_processes }
        if o.returncode = 0 ∧ st3.files fn = true then
          if o.editCompleteFails then
            ⟨st3, .exception, some e, L.renders, [], false, none, 0, L.warns⟩
          else
            let U := uploadRun o.task_id o.msgId o.auth o.mediaSize o.startTime
              o.upRenderFails o.upCancelAt st3 o.chunkEvents
            match U.response with
            | some (fid, link) =>
              if o.editFinalFails then
                ⟨U.st, .exception, some e, L.renders, U.renders, true, some fn,
                  U.chunks, L.warns + U.warns⟩
              else
                ⟨U.st, .completed fid link, some e, L.renders, U.renders, true,
                  some fn, U.chunks, L.warns + U.warns⟩
            | none =>
              ⟨U.st, .uploadNone, some e, L.renders, U.renders, true, some fn,
                U.chunks, L.warns + U.warns⟩
        else
          ⟨st3,
            .downloadFailed ((alookup o.task_id st3.progress_messages).map
              (fun _ => String.mk ((pyStrip o.stderr.toList).take 1000))),
            some e, L.renders, [], false, none, 0, L.warns⟩

/-- One full task run: the body followed unconditionally by the `finally`
cleanup. -/
def run (st0 : St) (o : Oracle) : RunRes :=
  let p := runBody st0 o
  { p with st := finallyStep o.task_id (o.file_name ++ ".mp4") p.st }

/-! ## Loop invariants -/

theorem cancel_lookup_none (st : St) (tid : String) :
    alookup tid (cancel_any_download st tid).1.active_processes = none := by
  rw [(cancel_any_download_erases st tid).1]
  exact alookup_eraseK_self tid _

/-- The download loop either broke on the cancellation check (and then the
task id is absent from `active_processes`) or never observed a cancel (and
then the shared state is untouched). -/
theorem dlLoop_cb_or_st (tid : String) (rf : ℕ → Bool) (cAt rAt : Option ℕ) :
    ∀ (chunks : List String) (i : ℕ) (st : St) (buf : List Char) (lastPct : ℤ)
      (rens : List ℕ) (warns : ℕ),
      ((dlLoop tid rf cAt rAt i st buf lastPct rens warns chunks).exit =
          LoopExit.cancelledBreak ∧
        alookup tid (dlLoop tid rf cAt rAt i st buf lastPct rens
          warns chunks).st.active_processes = none) ∨
      ((dlLoop tid rf cAt rAt i st buf lastPct rens warns chunks).exit ≠
          LoopExit.cancelledBreak ∧
        (dlLoop tid rf cAt rAt i st buf lastPct rens warns chunks).st = st) := by
  intro chunks
  induction chunks with
  | nil =>
    intro i st buf lastPct rens warns
    rw [dlLoop]
    by_cases hc : cAt = some i
    · left
      exact ⟨by simp [hc, cancel_lookup_none], by simp [hc, cancel_lookup_none]⟩
    · by_cases h2 : alookup tid st.active_processes = none
      · left
        exact ⟨by simp [hc, h2], by simp [hc, h2]⟩
      · by_cases h3 : rAt = some i
        · right
          exact ⟨by simp [hc, h2, h3], by simp [hc, h2, h3]⟩
        · right
          exact ⟨by simp [hc, h2, h3], by simp [hc, h2, h3]⟩
  | cons ch rest ih =>
    intro i st buf lastPct rens warns
    rw [dlLoop]
    by_cases hc : cAt = some i
    · left
      exact ⟨by simp [hc, cancel_lookup_none], by simp [hc, cancel_lookup_none]⟩
    · by_cases h2 : alookup tid st.active_processes = none
      · left
        exact ⟨by simp [hc, h2], by simp [hc, h2]⟩
      · by_cases h3 : rAt = some i
        · right
          exact ⟨by simp [hc, h2, h3], by simp [hc, h2, h3]⟩
        · simp only [hc, h2, h3, ite_false, ite_true, if_neg, if_pos]
          split <;> first
            | (exact Or.inr ⟨fun hx => LoopExit.noConfusion hx, rfl⟩)
            | (exact ih _ _ _ _ _ _)
            | (split <;> first
                | (exact Or.inr ⟨fun hx => LoopExit.noConfusion hx, rfl⟩)
                | (exact ih _ _ _ _ _ _)
                | (split <;> first
                    | (exact Or.inr ⟨fun hx => LoopExit.noConfusion hx, rfl⟩)
                    | (exact ih _ _ _ _ _ _)
                    | (split <;> exact ih _ _ _ _ _ _)))

/-- If the download loop exits naturally, any cancel request index lies
outside the window of performed checks: no cancel was observed. -/
theorem dlLoop_natural_cAt (tid : String) (rf : ℕ → Bool) (cAt rAt : Option ℕ) :
    ∀ (chunks : List String) (i : ℕ) (st : St) (buf : List Char) (lastPct : ℤ)
      (rens : List ℕ) (warns : ℕ),
      (dlLoop tid rf cAt rAt i st buf lastPct rens warns chunks).exit ≠
        LoopExit.natural ∨
      (∀ j, cAt = some j → (j < i ∨ i + chunks.length < j)) := by
  intro chunks
  induction chunks with
  | nil =>
    intro i st buf lastPct rens warns
    rw [dlLoop]
    by_cases hc : cAt = some i
    · left
      simp [hc, cancel_lookup_none]
    · by_cases h2 : alookup tid st.active_processes = none
      · left
        simp [hc, h2]
      · by_cases h3 : rAt = some i
        · left
          simp [hc, h2, h3]
        · right
          intro j hj
          have hji : j ≠ i := fun e => hc (e ▸ hj)
          simp only [List.length_nil]
          omega
  | cons ch rest ih =>
    intro i st buf lastPct rens warns
    rw [dlLoop]
    by_cases hc : cAt = some i
    · left
      simp [hc, cancel_lookup_none]
    · by_cases h2 : alookup tid st.active_processes = none
      · left
        simp [hc, h2]
      · by_cases h3 : rAt = some i
        · left
          simp [hc, h2, h3]
        · simp only [hc, h2, h3, ite_false, ite_true, if_neg, if_pos]
          have hrec : ∀ (st' : St) (buf' : List Char) (lp' : ℤ) (rens' : List ℕ)
              (w' : ℕ),
              (dlLoop tid rf cAt rAt (i + 1) st' buf' lp' rens' w' rest).exit ≠
                LoopExit.natural ∨
              (∀ j, cAt = some j →
                (j < i ∨ i + (ch :: rest).length < j)) := by
            intro st' buf' lp' rens' w'
            refine (ih (i + 1) st' buf' lp' rens' w').imp (fun H => H) ?_
            intro H j hj
            have hji : j ≠ i := fun e => hc (e ▸ hj)
            have h4 := H j hj
            simp only [List.length_cons] at h4 ⊢
            omega
          split <;> first
            | (exact Or.inl (fun hx => LoopExit.noConfusion hx))
            | (exact hrec _ _ _ _ _)
            | (split <;> first
                | (exact Or.inl (fun hx => LoopExit.noConfusion hx))
                | (exact hrec _ _ _ _ _)
                | (split <;> first
                    | (exact Or.inl (fun hx => LoopExit.noConfusion hx))
                    | (exact hrec _ _ _ _ _)
                    | (split <;> exact hrec _ _ _ _ _)))

/-- Claim C7 invariant: the rendered whole percents of the download loop are
strictly increasing. -/
theorem dlLoop_pairwise (tid : String) (rf : ℕ → Bool) (cAt rAt : Option ℕ) :
    ∀ (chunks : List String) (i : ℕ) (st : St) (buf : List Char) (lastPct : ℤ)
      (rens : List ℕ) (warns : ℕ),
      List.Pairwise (fun a b => a < b) rens →
      (∀ x ∈ rens, (x : ℤ) ≤ lastPct) →
      List.Pairwise (fun a b => a < b)
        (dlLoop tid rf cAt rAt i st buf lastPct rens warns chunks).renders := by
  intro chunks
  induction chunks with
  | nil =>
    intro i st buf lastPct rens warns hp hb
    rw [dlLoop]
    by_cases hc : cAt = some i
    · simpa [hc, cancel_lookup_none] using hp
    · by_cases h2 : alookup tid st.active_processes = none
      · simpa [hc, h2] using hp
      · by_cases h3 : rAt = some i
        · simpa [hc, h2, h3] using hp
        · simpa [hc, h2, h3] using hp
  | cons ch rest ih =>
    intro i st buf lastPct rens warns hp hb
    rw [dlLoop]
    by_cases hc : cAt = some i
    · simpa [hc, cancel_lookup_none] using hp
    · by_cases h2 : alookup tid st.active_processes = none
      · simpa [hc, h2] using hp
      · by_cases h3 : rAt = some i
        · simpa [hc, h2, h3] using hp
        · simp only [hc, h2, h3, ite_false, ite_true, if_neg, if_pos]
          split
          · split
            · split
              · exact hp
              · rename_i pct heq
                split
                next hgt =>
                  refine ih _ _ _ _ _ _ ?_ ?_
                  · rw [List.pairwise_append]
                    refine ⟨hp, List.pairwise_singleton _ _, ?_⟩
                    intro a ha b hb2
                    rw [List.mem_singleton] at hb2
                    subst hb2
                    exact_mod_cast lt_of_le_of_lt (hb a ha) hgt
                  · intro x hx
                    rw [List.mem_append] at hx
                    rcases hx with hx | hx
                    · exact le_of_lt (lt_of_le_of_lt (hb x hx) hgt)
                    · rw [List.mem_singleton] at hx
                      subst hx
                      exact le_refl _
                next hgt =>
                  exact ih _ _ _ _ _ _ hp hb
            · exact hp
            · exact ih _ _ _ _ _ _ hp hb
          · exact ih _ _ _ _ _ _ hp hb

/-- Render failures are swallowed: the download loop state, rendered
percents and exit are independent of the render-failure pattern. -/
theorem dlLoop_pairwise0 (tid : String) (rf : ℕ → Bool) (cAt rAt : Option ℕ)
    (chunks : List String) (i : ℕ) (st : St) (buf : List Char) (lastPct : ℤ)
    (warns : ℕ) :
    List.Pairwise (fun a b => a < b)
      (dlLoop tid rf cAt rAt i st buf lastPct [] warns chunks).renders :=
  dlLoop_pairwise tid rf cAt rAt chunks i st buf lastPct [] warns
    List.Pairwise.nil (fun x hx => absurd hx (List.not_mem_nil x))

theorem dlLoop_rf (tid : String) (f g : ℕ → Bool) (cAt rAt : Option ℕ) :
    ∀ (chunks : List String) (i : ℕ) (st : St) (buf : List Char) (lastPct : ℤ)
      (rens : List ℕ) (w w2 : ℕ),
      (dlLoop tid f cAt rAt i st buf lastPct rens w chunks).st =
        (dlLoop tid g cAt rAt i st buf lastPct rens w2 chunks).st ∧
      (dlLoop tid f cAt rAt i st buf lastPct rens w chunks).renders =
        (dlLoop tid g cAt rAt i st buf lastPct rens w2 chunks).renders ∧
      (dlLoop tid f cAt rAt i st buf lastPct rens w chunks).exit =
        (dlLoop tid g cAt rAt i st buf lastPct rens w2 chunks).exit := by
  intro chunks
  induction chunks with
  | nil =>
    intro i st buf lastPct rens w w2
    rw [dlLoop, dlLoop]
    by_cases hc : cAt = some i
    · simp [hc, cancel_lookup_none]
    · by_cases h2 : alookup tid st.active_processes = none
      · simp [hc, h2]
      · by_cases h3 : rAt = some i
        · simp [hc, h2, h3]
        · simp [hc, h2, h3]
  | cons ch rest ih =>
    intro i st buf lastPct rens w w2
    rw [dlLoop, dlLoop]
    by_cases hc : cAt = some i
    · simp [hc, cancel_lookup_none]
    · by_cases h2 : alookup tid st.active_processes = none
      · simp [hc, h2]
      · by_cases h3 : rAt = some i
        · simp [hc, h2, h3]
        · simp only [hc, h2, h3, ite_false, ite_true, if_neg, if_pos]
          split <;> first
            | (exact ⟨rfl, rfl, rfl⟩)
            | (exact ih _ _ _ _ _ _ _)
            | (split <;> first
                | (exact ⟨rfl, rfl, rfl⟩)
                | (exact ih _ _ _ _ _ _ _)
                | (split <;> first
                    | (exact ⟨rfl, rfl, rfl⟩)
                    | (exact ih _ _ _ _ _ _ _)
                    | (split <;> exact ih _ _ _ _ _ _ _)))

/-- The upload loop preserves absence from `active_processes` (nothing ever
re-registers a task). -/
theorem upLoop_active_none (tid : String) (msgId mediaSize : ℕ) (rf : ℕ → Bool)
    (cAt : Option ℕ) :
    ∀ (evs : List ChunkEv) (i : ℕ) (st : St) (lastBytes : ℕ) (lastTime : ℚ)
      (n : ℕ) (rens : List UpSnapshot) (warns : ℕ),
      alookup tid st.active_processes = none →
      alookup tid (upLoop tid msgId mediaSize rf cAt i st lastBytes lastTime n
        rens warns evs).st.active_processes = none := by
  intro evs
  induction evs with
  | nil =>
    intro i st lastBytes lastTime n rens warns h
    rw [upLoop]
    have h1 : alookup tid (if cAt = some i then (cancel_any_download st tid).1
        else st).active_processes = none := by
      by_cases hc : cAt = some i
      · simp [hc, cancel_lookup_none]
      · simp [hc, h]
    by_cases hcond : alookup tid (if cAt = some i then (cancel_any_download st tid).1
          else st).active_processes = none ∧
        ((if cAt = some i then (cancel_any_download st tid).1
          else st).progress_messages.map Prod.snd).contains msgId = false
    · rw [if_pos hcond]
      exact h1
    · rw [if_neg hcond]
      exact h1
  | cons ev rest ih =>
    intro i st lastBytes lastTime n rens warns h
    rw [upLoop.eq_def]
    dsimp only
    have h1 : alookup tid (if cAt = some i then (cancel_any_download st tid).1
        else st).active_processes = none := by
      by_cases hc : cAt = some i
      · simp [hc, cancel_lookup_none]
      · simp [hc, h]
    by_cases hcond : alookup tid (if cAt = some i then (cancel_any_download st tid).1
          else st).active_processes = none ∧
        ((if cAt = some i then (cancel_any_download st tid).1
          else st).progress_messages.map Prod.snd).contains msgId = false
    · rw [if_pos hcond]
      exact h1
    · rw [if_neg hcond]
      cases ev with
      | raiseEv => exact h1
      | done fid link => exact h1
      | status b now => exact ih _ _ _ _ _ _ _ h1

/-- Render failures are swallowed: the upload loop response, state, chunk
count and snapshots are independent of the render-failure pattern. -/
theorem upLoop_rf (tid : String) (msgId mediaSize : ℕ) (f g : ℕ → Bool)
    (cAt : Option ℕ) :
    ∀ (evs : List ChunkEv) (i : ℕ) (st : St) (lastBytes : ℕ) (lastTime : ℚ)
      (n : ℕ) (rens : List UpSnapshot) (w w2 : ℕ),
      (upLoop tid msgId mediaSize f cAt i st lastBytes lastTime n rens w evs).response =
        (upLoop tid msgId mediaSize g cAt i st lastBytes lastTime n rens w2 evs).response ∧
      (upLoop tid msgId mediaSize f cAt i st lastBytes lastTime n rens w evs).st =
        (upLoop tid msgId mediaSize g cAt i st lastBytes lastTime n rens w2 evs).st ∧
      (upLoop tid msgId mediaSize f cAt i st lastBytes lastTime n rens w evs).chunks =
        (upLoop tid msgId mediaSize g cAt i st lastBytes lastTime n rens w2 evs).chunks ∧
      (upLoop tid msgId mediaSize f cAt i st lastBytes lastTime n rens w evs).renders =
        (upLoop tid msgId mediaSize g cAt i st lastBytes lastTime n rens w2 evs).renders := by
  intro evs
  induction evs with
  | nil =>
    intro i st lastBytes lastTime n rens w w2
    rw [upLoop, upLoop]
    by_cases hcond : alookup tid (if cAt = some i then (cancel_any_download st tid).1
          else st).active_processes = none ∧
        ((if cAt = some i then (cancel_any_download st tid).1
          else st).progress_messages.map Prod.snd).contains msgId = false
    · refine ⟨?_, ?_, ?_, ?_⟩ <;> rw [if_pos hcond, if_pos hcond]
    · refine ⟨?_, ?_, ?_, ?_⟩ <;> rw [if_neg hcond, if_neg hcond]
  | cons ev rest ih =>
    intro i st lastBytes lastTime n rens w w2
    rw [upLoop.eq_def, upLoop.eq_def]
    dsimp only
    by_cases hcond : alookup tid (if cAt = some i then (cancel_any_download st tid).1
          else st).active_processes = none ∧
        ((if cAt = some i then (cancel_any_download st tid).1
          else st).progress_messages.map Prod.snd).contains msgId = false
    · refine ⟨?_, ?_, ?_, ?_⟩ <;> rw [if_pos hcond, if_pos hcond]
    · rw [if_neg hcond, if_neg hcond]
      cases ev with
      | raiseEv => exact ⟨rfl, rfl, rfl, rfl⟩
      | done fid link => exact ⟨rfl, rfl, rfl, rfl⟩
      | status b now => exact ih _ _ _ _ _ _ _ _

/-! ## Run-level theorems -/

theorem finallyStep_progress (tid fn : String) (st : St) :
    alookup tid (finallyStep tid fn st).progress_messages = none := by
  unfold finallyStep
  dsimp only
  split
  · exact alookup_eraseK_self tid _
  · exact alookup_eraseK_self tid _

theorem finallyStep_files (tid fn : String) (st : St) :
    (finallyStep tid fn st).files fn = false := by
  unfold finallyStep
  dsimp only
  split
  next h => simp [updF]
  next h => simpa using h

theorem finallyStep_active (tid fn : String) (st : St) :
    (finallyStep tid fn st).active_processes = st.active_processes := by
  unfold finallyStep
  dsimp only
  split
  · rfl
  · rfl

theorem run_st_eq (st0 : St) (o : Oracle) :
    (run st0 o).st =
      finallyStep o.task_id (o.file_name ++ ".mp4") (runBody st0 o).st := rfl

theorem run_outcome_eq (st0 : St) (o : Oracle) :
    (run st0 o).outcome = (runBody st0 o).outcome := rfl

theorem run_dlExit_eq (st0 : St) (o : Oracle) :
    (run st0 o).dlExit = (runBody st0 o).dlExit := rfl

theorem run_dlRenders_eq (st0 : St) (o : Oracle) :
    (run st0 o).dlRenders = (runBody st0 o).dlRenders := rfl

theorem run_upRenders_eq (st0 : St) (o : Oracle) :
    (run st0 o).upRenders = (runBody st0 o).upRenders := rfl

theorem run_uploadAttempted_eq (st0 : St) (o : Oracle) :
    (run st0 o).uploadAttempted = (runBody st0 o).uploadAttempted := rfl

theorem run_uploadPath_eq (st0 : St) (o : Oracle) :
    (run st0 o).uploadPath = (runBody st0 o).uploadPath := rfl

theorem run_chunksAttempted_eq (st0 : St) (o : Oracle) :
    (run st0 o).chunksAttempted = (runBody st0 o).chunksAttempted := rfl

theorem uploadRun_active_none (tid : String) (msgId : ℕ) (auth : Bool)
    (mediaSize : ℕ) (startTime : ℚ) (rf : ℕ → Bool) (cAt : Option ℕ) (st : St)
    (evs : List ChunkEv) (h : alookup tid st.active_processes = none) :
    alookup tid (uploadRun tid msgId auth mediaSize startTime rf cAt st
      evs).st.active_processes = none := by
  unfold uploadRun
  split
  · exact upLoop_active_none tid msgId mediaSize rf cAt evs 0 st 0 startTime 0 [] 0 h
  · exact h

/-- Every task run ends with no registry entry in `active_processes` or with
outcome `exception` (the body part of the claim C1 analysis). -/
theorem runBody_exc_or_active (st0 : St) (o : Oracle) :
    (runBody st0 o).outcome = Outcome.exception ∨
    alookup o.task_id (runBody st0 o).st.active_processes = none := by
  unfold runBody
  by_cases h1 : o.editInitialFails
  · rw [if_pos h1]
    left
    rfl
  · rw [if_neg h1]
    by_cases h2 : o.spawnFails
    · rw [if_pos h2]
      left
      rfl
    · rw [if_neg h2]
      dsimp only
      by_cases hp : o.produced = true
      case pos =>
        rw [if_pos hp]
        split
        · left
          rfl
        · split
          next h249 =>
            right
            exact h249
          next h249 =>
            split
            next hrc =>
              split
              · left
                rfl
              · split
                next fid link hU =>
                  split
                  · left
                    rfl
                  · right
                    exact uploadRun_active_none _ _ _ _ _ _ _ _ _
                      (alookup_eraseK_self _ _)
                next hU =>
                  right
                  exact uploadRun_active_none _ _ _ _ _ _ _ _ _
                    (alookup_eraseK_self _ _)
            next hrc =>
              right
              exact alookup_eraseK_self _ _
      case neg =>
        rw [if_neg hp]
        split
        · left
          rfl
        · split
          next h249 =>
            right
            exact h249
          next h249 =>
            split
            next hrc =>
              split
              · left
                rfl
              · split
                next fid link hU =>
                  split
                  · left
                    rfl
                  · right
                    exact uploadRun_active_none _ _ _ _ _ _ _ _ _
                      (alookup_eraseK_self _ _)
                next hU =>
                  right
                  exact uploadRun_active_none _ _ _ _ _ _ _ _ _
                    (alookup_eraseK_self _ _)
            next hrc =>
              right
              exact alookup_eraseK_self _ _

/-- Claim C1 (amended): the finally-based finalize runs on every exit path,
removing the progress-message entry and deleting the artifact file; the
`active_processes` entry is removed on every non-exception terminal path,
while an exception thrown with the process registered leaves it behind. -/
theorem run_c1_amended (st0 : St) (o : Oracle) :
    alookup o.task_id (run st0 o).st.progress_messages = none ∧
    (run st0 o).st.files (o.file_name ++ ".mp4") = false ∧
    ((run st0 o).outcome ≠ Outcome.exception →
      alookup o.task_id (run st0 o).st.active_processes = none) := by
  refine ⟨?_, ?_, ?_⟩
  · rw [run_st_eq]
    exact finallyStep_progress _ _ _
  · rw [run_st_eq]
    exact finallyStep_files _ _ _
  · intro hne
    rw [run_outcome_eq] at hne
    rw [run_st_eq, finallyStep_active]
    rcases runBody_exc_or_active st0 o with h | h
    · exact absurd h hne
    · exact h

/-- C1 input state: one task with its progress message registered. -/
def exSt1 : St := ⟨[], [("t", 5)], fun _ => false, fun _ => false⟩

/-- C1 oracle: the output read raises mid-download. -/
def exOrC1 : Oracle :=
  { task_id := "t", msgId := 5, file_name := "f", url := "u",
    editInitialFails := false, spawnFails := false, procTree := [7], chunks := [],
    readFailsAt := some 0, cancelAt := none, dlRenderFails := fun _ => false,
    returncode := 1, produced := true, stderr := "", editCompleteFails := false,
    auth := true, mediaSize := 0, startTime := 0, chunkEvents := [],
    upCancelAt := none, upRenderFails := fun _ => false, editFinalFails := false }

/-- Counterexample to claim C1 as stated: a read exception mid-pipeline
ends the task in a terminal state (outcome `exception`), yet the
`active_processes` registry entry survives the cleanup, so a terminal task
can still have a registry entry. -/
theorem run_c1_counterexample :
    (run exSt1 exOrC1).outcome = Outcome.exception ∧
    alookup "t" (run exSt1 exOrC1).st.active_processes = some ([7], "f.mp4") := by
  exact ⟨rfl, rfl⟩

/-- C1 oracle variant: the download fails naturally (no exception). -/
def exOrC1b : Oracle :=
  { exOrC1 with readFailsAt := none }

/-- Witness for the amended C1 at a concrete failing download. -/
theorem run_c1_witness :
    alookup "t" (run exSt1 exOrC1b).st.progress_messages = none ∧
    (run exSt1 exOrC1b).st.files ("f" ++ ".mp4") = false ∧
    alookup "t" (run exSt1 exOrC1b).st.active_processes = none :=
  ⟨(run_c1_amended exSt1 exOrC1b).1, (run_c1_amended exSt1 exOrC1b).2.1,
   (run_c1_amended exSt1 exOrC1b).2.2 (by decide)⟩

/-- Claim C7: within the download phase of any run, the rendered whole
percents are strictly increasing: never lower than or equal to a previously
rendered one, and each value forwarded at most once. -/
theorem run_c7 (st0 : St) (o : Oracle) :
    List.Pairwise (fun a b => a < b) (run st0 o).dlRenders := by
  rw [run_dlRenders_eq]
  unfold runBody
  by_cases h1 : o.editInitialFails
  · rw [if_pos h1]
    exact List.Pairwise.nil
  · rw [if_neg h1]
    by_cases h2 : o.spawnFails
    · rw [if_pos h2]
      exact List.Pairwise.nil
    · rw [if_neg h2]
      dsimp only
      by_cases hp : o.produced = true
      case pos =>
        rw [if_pos hp]
        split <;> first
          | (exact dlLoop_pairwise0 _ _ _ _ _ _ _ _ _ _)
          | (split <;> first
              | (exact dlLoop_pairwise0 _ _ _ _ _ _ _ _ _ _)
              | (split <;> first
                  | (exact dlLoop_pairwise0 _ _ _ _ _ _ _ _ _ _)
                  | (split <;> first
                      | (exact dlLoop_pairwise0 _ _ _ _ _ _ _ _ _ _)
                      | (split <;> first
                          | (exact dlLoop_pairwise0 _ _ _ _ _ _ _ _ _ _)
                          | (split <;> first
                              | (exact dlLoop_pairwise0 _ _ _ _ _ _ _ _ _ _)
                              | skip)))))
      case neg =>
        rw [if_neg hp]
        split <;> first
          | (exact dlLoop_pairwise0 _ _ _ _ _ _ _ _ _ _)
          | (split <;> first
              | (exact dlLoop_pairwise0 _ _ _ _ _ _ _ _ _ _)
              | (split <;> first
                  | (exact dlLoop_pairwise0 _ _ _ _ _ _ _ _ _ _)
                  | (split <;> first
                      | (exact dlLoop_pairwise0 _ _ _ _ _ _ _ _ _ _)
                      | (split <;> first
                          | (exact dlLoop_pairwise0 _ _ _ _ _ _ _ _ _ _)
                          | (split <;> first
                              | (exact dlLoop_pairwise0 _ _ _ _ _ _ _ _ _ _)
                              | skip)))))

/-- Claim C8: without a credential, the upload driver returns no response
and attempts no chunk transfer and renders no progress. -/
theorem uploadRun_c8 (tid : String) (msgId mediaSize : ℕ) (startTime : ℚ)
    (rf : ℕ → Bool) (cAt : Option ℕ) (st : St) (evs : List ChunkEv) :
    (uploadRun tid msgId false mediaSize startTime rf cAt st evs).response = none ∧
    (uploadRun tid msgId false mediaSize startTime rf cAt st evs).chunks = 0 ∧
    (uploadRun tid msgId false mediaSize startTime rf cAt st evs).renders = [] := by
  unfold uploadRun
  exact ⟨rfl, rfl, rfl⟩

theorem bool_or_left {a b : Bool} (h : a = true) : (a || b) = true := by
  rw [h]
  rfl

theorem bool_or_right {a b : Bool} (h : b = true) : (a || b) = true := by
  rw [h]
  cases a
  · rfl
  · rfl

/-- If the download loop exits without raising and leaves the registry entry
present, it exited naturally, left the shared state untouched and no cancel
request index fell inside its window. -/
theorem runBody_upload_aux (tid : String) (rf : ℕ → Bool) (cAt rAt : Option ℕ)
    (chunks : List String) (st1 : St)
    (hA : ¬ alookup tid (dlLoop tid rf cAt rAt 0 st1 [] (-1) [] 0
      chunks).st.active_processes = none)
    (hR : (dlLoop tid rf cAt rAt 0 st1 [] (-1) [] 0 chunks).exit =
      LoopExit.raised → False) :
    (dlLoop tid rf cAt rAt 0 st1 [] (-1) [] 0 chunks).exit = LoopExit.natural ∧
    (dlLoop tid rf cAt rAt 0 st1 [] (-1) [] 0 chunks).st = st1 ∧
    ∀ j, cAt = some j → chunks.length < j := by
  rcases dlLoop_cb_or_st tid rf cAt rAt chunks 0 st1 [] (-1) [] 0 with
    ⟨hcb, hnone⟩ | ⟨hcb, hst⟩
  · exact absurd hnone hA
  · have hnat : (dlLoop tid rf cAt rAt 0 st1 [] (-1) [] 0 chunks).exit =
        LoopExit.natural := by
      cases hx : (dlLoop tid rf cAt rAt 0 st1 [] (-1) [] 0 chunks).exit
      · rfl
      · exact absurd hx hcb
      · exact (hR hx).elim
    refine ⟨hnat, hst, ?_⟩
    rcases dlLoop_natural_cAt tid rf cAt rAt chunks 0 st1 [] (-1) [] 0 with hne | hb
    · exact absurd hnat hne
    · intro j hj
      rcases hb j hj with h | h
      · omega
      · omega

/-- The body attempts an upload only after a successful download: exit code
zero with the artifact present, a natural loop exit, and no cancel request
index inside the download window. -/
theorem runBody_upload_cases (st0 : St) (o : Oracle) :
    (runBody st0 o).uploadAttempted = false ∨
    (o.returncode = 0 ∧
      (o.produced || st0.files (o.file_name ++ ".mp4")) = true ∧
      (runBody st0 o).dlExit = some LoopExit.natural ∧
      ∀ j, o.cancelAt = some j → o.chunks.length < j) := by
  unfold runBody
  by_cases h1 : o.editInitialFails
  · rw [if_pos h1]
    left
    rfl
  · rw [if_neg h1]
    by_cases h2 : o.spawnFails
    · rw [if_pos h2]
      left
      rfl
    · rw [if_neg h2]
      dsimp only
      by_cases hp : o.produced = true
      case pos =>
        rw [if_pos hp]
        split
        · left
          rfl
        next hnr =>
          split
          next h249 =>
            left
            rfl
          next h249 =>
            obtain ⟨hnat, hst, hbound⟩ := runBody_upload_aux o.task_id
              o.dlRenderFails o.cancelAt o.readFailsAt o.chunks _ h249 hnr
            split
            next hrc =>
              split
              · left
                rfl
              · split
                next fid link hU =>
                  split
                  · right
                    refine ⟨hrc.1, ?_, ?_, hbound⟩
                    · exact bool_or_left hp
                    · dsimp only
                      rw [hnat]
                  · right
                    refine ⟨hrc.1, ?_, ?_, hbound⟩
                    · exact bool_or_left hp
                    · dsimp only
                      rw [hnat]
                next hU =>
                  right
                  refine ⟨hrc.1, ?_, ?_, hbound⟩
                  · exact bool_or_left hp
                  · dsimp only
                    rw [hnat]
            next hrc =>
              left
              rfl
      case neg =>
        rw [if_neg hp]
        split
        · left
          rfl
        next hnr =>
          split
          next h249 =>
            left
            rfl
          next h249 =>
            obtain ⟨hnat, hst, hbound⟩ := runBody_upload_aux o.task_id
              o.dlRenderFails o.cancelAt o.readFailsAt o.chunks _ h249 hnr
            split
            next hrc =>
              split
              · left
                rfl
              · split
                next fid link hU =>
                  split
                  · right
                    refine ⟨hrc.1, ?_, ?_, hbound⟩
                    · have h5 : st0.files (o.file_name ++ ".mp4") = true := by
                        rw [hst] at hrc
                        exact hrc.2
                      exact bool_or_right h5
                    · dsimp only
                      rw [hnat]
                  · right
                    refine ⟨hrc.1, ?_, ?_, hbound⟩
                    · have h5 : st0.files (o.file_name ++ ".mp4") = true := by
                        rw [hst] at hrc
                        exact hrc.2
                      exact bool_or_right h5
                    · dsimp only
                      rw [hnat]
                next hU =>
                  right
                  refine ⟨hrc.1, ?_, ?_, hbound⟩
                  · have h5 : st0.files (o.file_name ++ ".mp4") = true := by
                      rw [hst] at hrc
                      exact hrc.2
                    exact bool_or_right h5
                  · dsimp only
                    rw [hnat]
            next hrc =>
              left
              rfl

/-- Claim C3: the upload phase is entered only when the download succeeded:
exit code zero and the artifact file exists; in particular the loop exited
naturally (never on the cancellation check) and no cancel request fired
during the download window. -/
theorem run_c3 (st0 : St) (o : Oracle)
    (h : (run st0 o).uploadAttempted = true) :
    o.returncode = 0 ∧
    (o.produced || st0.files (o.file_name ++ ".mp4")) = true ∧
    (run st0 o).dlExit = some LoopExit.natural ∧
    ∀ j, o.cancelAt = some j → o.chunks.length < j := by
  rw [run_uploadAttempted_eq] at h
  rw [run_dlExit_eq]
  rcases runBody_upload_cases st0 o with hfa | hok
  · rw [hfa] at h
    exact absurd h (by decide)
  · exact hok

/-- C3 oracle: a clean download followed by a one-chunk upload. -/
def exOrC3 : Oracle :=
  { task_id := "t", msgId := 5, file_name := "f", url := "u",
    editInitialFails := false, spawnFails := false, procTree := [7], chunks := [],
    readFailsAt := none, cancelAt := none, dlRenderFails := fun _ => false,
    returncode := 0, produced := true, stderr := "", editCompleteFails := false,
    auth := true, mediaSize := 4, startTime := 0,
    chunkEvents := [ChunkEv.done "id" "link"],
    upCancelAt := none, upRenderFails := fun _ => false, editFinalFails := false }

/-- Witness for C3 at a concrete successful run. -/
theorem run_c3_witness :
    (run exSt1 exOrC3).uploadAttempted = true ∧
    (exOrC3.returncode = 0 ∧
      (exOrC3.produced || exSt1.files (exOrC3.file_name ++ ".mp4")) = true ∧
      (run exSt1 exOrC3).dlExit = some LoopExit.natural ∧
      ∀ j, exOrC3.cancelAt = some j → exOrC3.chunks.length < j) :=
  ⟨rfl, run_c3 exSt1 exOrC3 rfl⟩

theorem alookup_cons_self {β : Type} (k : String) (v : β)
    (l : List (String × β)) : alookup k ((k, v) :: l) = some v := by
  simp [alookup]

theorem updF_self {α β : Type} [DecidableEq α] (f : α → β) (k : α) (v : β) :
    updF f k v k = v := by
  simp [updF]

/-- If the registry entry for the task heads `active_processes` at loop start
but is gone at loop end, the loop did not exit naturally. -/
theorem runBody_cancel_aux (tid : String) (rf : ℕ → Bool) (cAt rAt : Option ℕ)
    (chunks : List String) (st1 : St) (pr : List ℕ × String)
    (rest : List (String × (List ℕ × String)))
    (hact : st1.active_processes = (tid, pr) :: rest)
    (hA : alookup tid (dlLoop tid rf cAt rAt 0 st1 [] (-1) [] 0
      chunks).st.active_processes = none) :
    (dlLoop tid rf cAt rAt 0 st1 [] (-1) [] 0 chunks).exit ≠
      LoopExit.natural := by
  intro hx
  rcases dlLoop_cb_or_st tid rf cAt rAt chunks 0 st1 [] (-1) [] 0 with
    ⟨hcb, hno⟩ | ⟨hcb, hst⟩
  · rw [hx] at hcb
    exact LoopExit.noConfusion hcb
  · rw [hst, hact, alookup_cons_self] at hA
    exact Option.noConfusion hA

/-- On a natural loop exit (with the three notifier/bookkeeping edits not
raising), the body either attempts the upload with the artifact path (exit
code zero and artifact present) or reports the failure text built from the
FIRST 1000 characters of the stripped standard error. -/
theorem runBody_natural_cases (st0 : St) (o : Oracle)
    (h1 : o.editInitialFails = false) (h2 : o.spawnFails = false)
    (h3 : o.editCompleteFails = false) :
    (runBody st0 o).dlExit ≠ some LoopExit.natural ∨
    (o.returncode = 0 ∧
      (o.produced || st0.files (o.file_name ++ ".mp4")) = true ∧
      (runBody st0 o).uploadAttempted = true ∧
      (runBody st0 o).uploadPath = some (o.file_name ++ ".mp4")) ∨
    (¬(o.returncode = 0 ∧
        (o.produced || st0.files (o.file_name ++ ".mp4")) = true) ∧
      (runBody st0 o).outcome = Outcome.downloadFailed
        ((alookup o.task_id st0.progress_messages).map
          (fun _ => String.mk ((pyStrip o.stderr.toList).take 1000)))) := by
  have h1' : ¬ o.editInitialFails = true := by simp [h1]
  have h2' : ¬ o.spawnFails = true := by simp [h2]
  have h3' : ¬ o.editCompleteFails = true := by simp [h3]
  unfold runBody
  rw [if_neg h1', if_neg h2']
  dsimp only
  by_cases hp : o.produced = true
  case pos =>
    rw [if_pos hp]
    split
    · left
      intro hx
      exact LoopExit.noConfusion (Option.some.inj hx)
    next hnr =>
      split
      next h249 =>
        left
        intro hx
        exact runBody_cancel_aux o.task_id o.dlRenderFails o.cancelAt
          o.readFailsAt o.chunks _ _ _ rfl h249 (Option.some.inj hx)
      next h249 =>
        obtain ⟨hnat, hst, hbound⟩ := runBody_upload_aux o.task_id
          o.dlRenderFails o.cancelAt o.readFailsAt o.chunks _ h249 hnr
        split
        next hrc =>
          split
          next fid link hU =>
            split
            · right
              left
              exact ⟨hrc.1, bool_or_left hp, rfl, rfl⟩
            · right
              left
              exact ⟨hrc.1, bool_or_left hp, rfl, rfl⟩
          next hU =>
            right
            left
            exact ⟨hrc.1, bool_or_left hp, rfl, rfl⟩
        next hrc =>
          right
          right
          refine ⟨?_, ?_⟩
          · intro hcon
            apply hrc
            refine ⟨hcon.1, ?_⟩
            rw [hst]
            exact updF_self _ _ _
          · dsimp only
            rw [hst]
  case neg =>
    have hp' : o.produced = false := by
      cases hq : o.produced
      · rfl
      · exact absurd hq hp
    rw [if_neg hp]
    split
    · left
      intro hx
      exact LoopExit.noConfusion (Option.some.inj hx)
    next hnr =>
      split
      next h249 =>
        left
        intro hx
        exact runBody_cancel_aux o.task_id o.dlRenderFails o.cancelAt
          o.readFailsAt o.chunks _ _ _ rfl h249 (Option.some.inj hx)
      next h249 =>
        obtain ⟨hnat, hst, hbound⟩ := runBody_upload_aux o.task_id
          o.dlRenderFails o.cancelAt o.readFailsAt o.chunks _ h249 hnr
        split
        next hrc =>
          split
          next fid link hU =>
            split
            · right
              left
              have h5 := hrc.2
              rw [hst] at h5
              exact ⟨hrc.1, bool_or_right h5, rfl, rfl⟩
            · right
              left
              have h5 := hrc.2
              rw [hst] at h5
              exact ⟨hrc.1, bool_or_right h5, rfl, rfl⟩
          next hU =>
            right
            left
            have h5 := hrc.2
            rw [hst] at h5
            exact ⟨hrc.1, bool_or_right h5, rfl, rfl⟩
        next hrc =>
          right
          right
          refine ⟨?_, ?_⟩
          · intro hcon
            apply hrc
            refine ⟨hcon.1, ?_⟩
            rw [hst]
            obtain ⟨hc1, hc2⟩ := hcon
            rw [hp'] at hc2
            exact hc2
          · dsimp only
            rw [hst]

/-- C2 oracle: a naturally failing download whose standard error is 1001
characters long, so its first and last 1000 characters differ. -/
def exOrC2 : Oracle :=
  { exOrC1b with stderr := String.mk (List.replicate 1000 'a' ++ ['b']) }

set_option maxRecDepth 20000 in
/-- Counterexample to claim C2 as stated: the reported failure text is the
FIRST 1000 characters of standard error (`stderr_text[:1000]`), which
differs from the last 1000 characters of the same standard error. -/
theorem run_c2_counterexample :
    (run exSt1 exOrC2).outcome =
      Outcome.downloadFailed (some (String.mk (List.replicate 1000 'a'))) ∧
    String.mk (List.replicate 1000 'a') ≠
      String.mk (exOrC2.stderr.toList.drop (exOrC2.stderr.toList.length - 1000)) := by
  refine ⟨rfl, ?_⟩
  decide

/-- Claim C2 (amended): on a natural download exit with the notifier edits
not raising, a zero exit code with the artifact present leads to the upload
with the artifact path, while any other combination reports a failure whose
text is the FIRST 1000 characters of the stripped standard error. -/
theorem run_c2_amended (st0 : St) (o : Oracle)
    (h1 : o.editInitialFails = false) (h2 : o.spawnFails = false)
    (h3 : o.editCompleteFails = false)
    (hnat : (run st0 o).dlExit = some LoopExit.natural) :
    (o.returncode = 0 ∧
        (o.produced || st0.files (o.file_name ++ ".mp4")) = true →
      (run st0 o).uploadAttempted = true ∧
      (run st0 o).uploadPath = some (o.file_name ++ ".mp4")) ∧
    (¬(o.returncode = 0 ∧
        (o.produced || st0.files (o.file_name ++ ".mp4")) = true) →
      (run st0 o).outcome = Outcome.downloadFailed
        ((alookup o.task_id st0.progress_messages).map
          (fun _ => String.mk ((pyStrip o.stderr.toList).take 1000)))) := by
  rw [run_dlExit_eq] at hnat
  rw [run_uploadAttempted_eq, run_uploadPath_eq, run_outcome_eq]
  rcases runBody_natural_cases st0 o h1 h2 h3 with hne | hok | hfail
  · exact absurd hnat hne
  · exact ⟨fun hc => ⟨hok.2.2.1, hok.2.2.2⟩, fun hcon => absurd ⟨hok.1, hok.2.1⟩ hcon⟩
  · exact ⟨fun hc => absurd hc hfail.1, fun hc => hfail.2⟩

/-- Witness for the amended C2 at a concrete failing download. -/
theorem run_c2_witness :
    (exOrC2.editInitialFails = false ∧ exOrC2.spawnFails = false ∧
      exOrC2.editCompleteFails = false ∧
      (run exSt1 exOrC2).dlExit = some LoopExit.natural) ∧
    (¬(exOrC2.returncode = 0 ∧
        (exOrC2.produced || exSt1.files (exOrC2.file_name ++ ".mp4")) = true) →
      (run exSt1 exOrC2).outcome = Outcome.downloadFailed
        ((alookup exOrC2.task_id exSt1.progress_messages).map
          (fun _ => String.mk ((pyStrip exOrC2.stderr.toList).take 1000)))) :=
  ⟨⟨rfl, rfl, rfl, rfl⟩, (run_c2_amended exSt1 exOrC2 rfl rfl rfl rfl).2⟩

theorem dlLoop_rf_st (tid : String) (f g : ℕ → Bool) (cAt rAt : Option ℕ) :
    ∀ (chunks : List String) (i : ℕ) (st : St) (buf : List Char) (lastPct : ℤ)
      (rens : List ℕ) (w : ℕ),
      (dlLoop tid f cAt rAt i st buf lastPct rens w chunks).st =
        (dlLoop tid g cAt rAt i st buf lastPct rens w chunks).st :=
  fun chunks i st buf lastPct rens w =>
    (dlLoop_rf tid f g cAt rAt chunks i st buf lastPct rens w w).1

theorem dlLoop_rf_renders (tid : String) (f g : ℕ → Bool) (cAt rAt : Option ℕ) :
    ∀ (chunks : List String) (i : ℕ) (st : St) (buf : List Char) (lastPct : ℤ)
      (rens : List ℕ) (w : ℕ),
      (dlLoop tid f cAt rAt i st buf lastPct rens w chunks).renders =
        (dlLoop tid g cAt rAt i st buf lastPct rens w chunks).renders :=
  fun chunks i st buf lastPct rens w =>
    (dlLoop_rf tid f g cAt rAt chunks i st buf lastPct rens w w).2.1

theorem dlLoop_rf_exit (tid : String) (f g : ℕ → Bool) (cAt rAt : Option ℕ) :
    ∀ (chunks : List String) (i : ℕ) (st : St) (buf : List Char) (lastPct : ℤ)
      (rens : List ℕ) (w : ℕ),
      (dlLoop tid f cAt rAt i st buf lastPct rens w chunks).exit =
        (dlLoop tid g cAt rAt i st buf lastPct rens w chunks).exit :=
  fun chunks i st buf lastPct rens w =>
    (dlLoop_rf tid f g cAt rAt chunks i st buf lastPct rens w w).2.2

theorem uploadRun_rf_response (tid : String) (msgId : ℕ) (auth : Bool)
    (mediaSize : ℕ) (startTime : ℚ) (f g : ℕ → Bool) (cAt : Option ℕ) :
    ∀ (st : St) (evs : List ChunkEv),
      (uploadRun tid msgId auth mediaSize startTime f cAt st evs).response =
        (uploadRun tid msgId auth mediaSize startTime g cAt st evs).response := by
  intro st evs
  unfold uploadRun
  by_cases ha : auth = true
  · rw [if_pos ha, if_pos ha]
    exact (upLoop_rf tid msgId mediaSize f g cAt evs 0 st 0 startTime 0 [] 0 0).1
  · rw [if_neg ha, if_neg ha]

theorem uploadRun_rf_st (tid : String) (msgId : ℕ) (auth : Bool)
    (mediaSize : ℕ) (startTime : ℚ) (f g : ℕ → Bool) (cAt : Option ℕ) :
    ∀ (st : St) (evs : List ChunkEv),
      (uploadRun tid msgId auth mediaSize startTime f cAt st evs).st =
        (uploadRun tid msgId auth mediaSize startTime g cAt st evs).st := by
  intro st evs
  unfold uploadRun
  by_cases ha : auth = true
  · rw [if_pos ha, if_pos ha]
    exact (upLoop_rf tid msgId mediaSize f g cAt evs 0 st 0 startTime 0 [] 0 0).2.1
  · rw [if_neg ha, if_neg ha]

theorem uploadRun_rf_chunks (tid : String) (msgId : ℕ) (auth : Bool)
    (mediaSize : ℕ) (startTime : ℚ) (f g : ℕ → Bool) (cAt : Option ℕ) :
    ∀ (st : St) (evs : List ChunkEv),
      (uploadRun tid msgId auth mediaSize startTime f cAt st evs).chunks =
        (uploadRun tid msgId auth mediaSize startTime g cAt st evs).chunks := by
  intro st evs
  unfold uploadRun
  by_cases ha : auth = true
  · rw [if_pos ha, if_pos ha]
    exact (upLoop_rf tid msgId mediaSize f g cAt evs 0 st 0 startTime 0 [] 0 0).2.2.1
  · rw [if_neg ha, if_neg ha]

theorem uploadRun_rf_renders (tid : String) (msgId : ℕ) (auth : Bool)
    (mediaSize : ℕ) (startTime : ℚ) (f g : ℕ → Bool) (cAt : Option ℕ) :
    ∀ (st : St) (evs : List ChunkEv),
      (uploadRun tid msgId auth mediaSize startTime f cAt st evs).renders =
        (uploadRun tid msgId auth mediaSize startTime g cAt st evs).renders := by
  intro st evs
  unfold uploadRun
  by_cases ha : auth = true
  · rw [if_pos ha, if_pos ha]
    exact (upLoop_rf tid msgId mediaSize f g cAt evs 0 st 0 startTime 0 [] 0 0).2.2.2
  · rw [if_neg ha, if_neg ha]

/-- Render failures change nothing in the body but the warning counters. -/
theorem runBody_rf (st0 : St) (o : Oracle) (f g f2 g2 : ℕ → Bool) :
    (runBody st0 { o with dlRenderFails := f, upRenderFails := g }).outcome =
      (runBody st0 { o with dlRenderFails := f2, upRenderFails := g2 }).outcome ∧
    (runBody st0 { o with dlRenderFails := f, upRenderFails := g }).st =
      (runBody st0 { o with dlRenderFails := f2, upRenderFails := g2 }).st ∧
    (runBody st0 { o with dlRenderFails := f, upRenderFails := g }).dlRenders =
      (runBody st0 { o with dlRenderFails := f2, upRenderFails := g2 }).dlRenders ∧
    (runBody st0 { o with dlRenderFails := f, upRenderFails := g }).upRenders =
      (runBody st0 { o with dlRenderFails := f2, upRenderFails := g2 }).upRenders ∧
    (runBody st0 { o with dlRenderFails := f, upRenderFails := g }).uploadAttempted =
      (runBody st0 { o with dlRenderFails := f2, upRenderFails := g2 }).uploadAttempted ∧
    (runBody st0 { o with dlRenderFails := f, upRenderFails := g }).uploadPath =
      (runBody st0 { o with dlRenderFails := f2, upRenderFails := g2 }).uploadPath ∧
    (runBody st0 { o with dlRenderFails := f, upRenderFails := g }).chunksAttempted =
      (runBody st0 { o with dlRenderFails := f2, upRenderFails := g2 }).chunksAttempted := by
  unfold runBody
  dsimp only
  by_cases h1 : o.editInitialFails
  · rw [if_pos h1, if_pos h1]
    exact ⟨rfl, rfl, rfl, rfl, rfl, rfl, rfl⟩
  · rw [if_neg h1, if_neg h1]
    by_cases h2 : o.spawnFails
    · rw [if_pos h2, if_pos h2]
      exact ⟨rfl, rfl, rfl, rfl, rfl, rfl, rfl⟩
    · rw [if_neg h2, if_neg h2]
      rw [dlLoop_rf_st o.task_id f f2 o.cancelAt o.readFailsAt,
        dlLoop_rf_renders o.task_id f f2 o.cancelAt o.readFailsAt,
        dlLoop_rf_exit o.task_id f f2 o.cancelAt o.readFailsAt]
      by_cases hp : o.produced = true
      case pos =>
        rw [if_pos hp]
        split
        · exact ⟨rfl, rfl, rfl, rfl, rfl, rfl, rfl⟩
        next hnr =>
          split
          next h249 =>
            exact ⟨rfl, rfl, rfl, rfl, rfl, rfl, rfl⟩
          next h249 =>
            split
            next hrc =>
              split
              · exact ⟨rfl, rfl, rfl, rfl, rfl, rfl, rfl⟩
              · rw [uploadRun_rf_response o.task_id o.msgId o.auth o.mediaSize
                    o.startTime g g2 o.upCancelAt,
                  uploadRun_rf_st o.task_id o.msgId o.auth o.mediaSize
                    o.startTime g g2 o.upCancelAt,
                  uploadRun_rf_chunks o.task_id o.msgId o.auth o.mediaSize
                    o.startTime g g2 o.upCancelAt,
                  uploadRun_rf_renders o.task_id o.msgId o.auth o.mediaSize
                    o.startTime g g2 o.upCancelAt]
                split
                next fid link hU =>
                  split
                  · exact ⟨rfl, rfl, rfl, rfl, rfl, rfl, rfl⟩
                  · exact ⟨rfl, rfl, rfl, rfl, rfl, rfl, rfl⟩
                next hU =>
                  exact ⟨rfl, rfl, rfl, rfl, rfl, rfl, rfl⟩
            next hrc =>
              exact ⟨rfl, rfl, rfl, rfl, rfl, rfl, rfl⟩
      case neg =>
        rw [if_neg hp]
        split
        · exact ⟨rfl, rfl, rfl, rfl, rfl, rfl, rfl⟩
        next hnr =>
          split
          next h249 =>
            exact ⟨rfl, rfl, rfl, rfl, rfl, rfl, rfl⟩
          next h249 =>
            split
            next hrc =>
              split
              · exact ⟨rfl, rfl, rfl, rfl, rfl, rfl, rfl⟩
              · rw [uploadRun_rf_response o.task_id o.msgId o.auth o.mediaSize
                    o.startTime g g2 o.upCancelAt,
                  uploadRun_rf_st o.task_id o.msgId o.auth o.mediaSize
                    o.startTime g g2 o.upCancelAt,
                  uploadRun_rf_chunks o.task_id o.msgId o.auth o.mediaSize
                    o.startTime g g2 o.upCancelAt,
                  uploadRun_rf_renders o.task_id o.msgId o.auth o.mediaSize
                    o.startTime g g2 o.upCancelAt]
                split
                next fid link hU =>
                  split
                  · exact ⟨rfl, rfl, rfl, rfl, rfl, rfl, rfl⟩
                  · exact ⟨rfl, rfl, rfl, rfl, rfl, rfl, rfl⟩
                next hU =>
                  exact ⟨rfl, rfl, rfl, rfl, rfl, rfl, rfl⟩
            next hrc =>
              exact ⟨rfl, rfl, rfl, rfl, rfl, rfl, rfl⟩

/-- Claim C9: notifier delivery failures while rendering progress are
swallowed: two runs identical but for which render attempts fail have the
same outcome, final shared state, rendered progress sequences, upload
decision, upload path and chunk count. -/
theorem run_c9 (st0 : St) (o : Oracle) (f g f2 g2 : ℕ → Bool) :
    (run st0 { o with dlRenderFails := f, upRenderFails := g }).outcome =
      (run st0 { o with dlRenderFails := f2, upRenderFails := g2 }).outcome ∧
    (run st0 { o with dlRenderFails := f, upRenderFails := g }).st =
      (run st0 { o with dlRenderFails := f2, upRenderFails := g2 }).st ∧
    (run st0 { o with dlRenderFails := f, upRenderFails := g }).dlRenders =
      (run st0 { o with dlRenderFails := f2, upRenderFails := g2 }).dlRenders ∧
    (run st0 { o with dlRenderFails := f, upRenderFails := g }).upRenders =
      (run st0 { o with dlRenderFails := f2, upRenderFails := g2 }).upRenders ∧
    (run st0 { o with dlRenderFails := f, upRenderFails := g }).uploadAttempted =
      (run st0 { o with dlRenderFails := f2, upRenderFails := g2 }).uploadAttempted ∧
    (run st0 { o with dlRenderFails := f, upRenderFails := g }).uploadPath =
      (run st0 { o with dlRenderFails := f2, upRenderFails := g2 }).uploadPath ∧
    (run st0 { o with dlRenderFails := f, upRenderFails := g }).chunksAttempted =
      (run st0 { o with dlRenderFails := f2, upRenderFails := g2 }).chunksAttempted := by
  obtain ⟨ho, hs, hdr, hur, hua, hup, hc⟩ := runBody_rf st0 o f g f2 g2
  refine ⟨?_, ?_, ?_, ?_, ?_, ?_, ?_⟩
  · rw [run_outcome_eq, run_outcome_eq]
    exact ho
  · rw [run_st_eq, run_st_eq]
    dsimp only
    rw [hs]
  · rw [run_dlRenders_eq, run_dlRenders_eq]
    exact hdr
  · rw [run_upRenders_eq, run_upRenders_eq]
    exact hur
  · rw [run_uploadAttempted_eq, run_uploadAttempted_eq]
    exact hua
  · rw [run_uploadPath_eq, run_uploadPath_eq]
    exact hup
  · rw [run_chunksAttempted_eq, run_chunksAttempted_eq]
    exact hc

end StartMedia
